import Mathlib

/-!
Verification of the contact/note data model of the `goit-pycore-personal-assistant`
repository, shallowly embedded in Lean 4.

The embedding follows the Python sources:
  * `src/assistant/contacts/fields.py`       — field validators,
  * `src/assistant/contacts/record.py`       — `Record`,
  * `src/assistant/contacts/address_book.py` — `AddressBook`,
  * `src/assistant/contacts/commands.py`     — contact command handlers,
  * `src/assistant/notes/note.py`, `src/assistant/notes/notebook.py` — notes.

Calendar dates (`datetime.date`) are modelled as year/month/day triples of
naturals; `date` ordering, `date.replace`, subtraction of dates and the
ranges enforced by the `datetime` constructor (years 1..9999) are modelled
explicitly.  Python exceptions (`ValueError`) are modelled with
`Except String`; the `@input_error` decorator of `core.py` that turns a
raised `ValueError` of a command into its message string is folded into the
command embeddings, which return the printed string together with the
resulting book state.  Python dictionaries are modelled as association
lists with Python's insertion-order semantics (`dictInsert` overwrites in
place, inserts fresh keys at the end).

Strings are treated at Python's ASCII subset: `str.lower`, `str.strip`,
`str.isdigit` are modelled character-for-character for ASCII data.
-/

namespace Assistant

/-! ## Calendar model (`datetime.date`) -/

structure Date where
  year : Nat
  month : Nat
  day : Nat
deriving DecidableEq

/-- Gregorian leap-year rule used by `datetime`. -/
def isLeap (y : Nat) : Bool :=
  (y % 4 == 0 && y % 100 != 0) || y % 400 == 0

/-- Length of month `m` (1..12) given the leap flag of the year. -/
def daysInMonthB (leap : Bool) (m : Nat) : Nat :=
  if m = 2 then (if leap then 29 else 28)
  else if m = 4 ∨ m = 6 ∨ m = 9 ∨ m = 11 then 30
  else if 1 ≤ m ∧ m ≤ 12 then 31
  else 0

def daysInMonth (y m : Nat) : Nat := daysInMonthB (isLeap y) m

/-- The dates representable by `datetime.date`: years 1..9999, real
calendar month/day. -/
def Date.Valid (d : Date) : Prop :=
  1 ≤ d.year ∧ d.year ≤ 9999 ∧ 1 ≤ d.month ∧ d.month ≤ 12 ∧
    1 ≤ d.day ∧ d.day ≤ daysInMonth d.year d.month

instance (d : Date) : Decidable d.Valid := by
  unfold Date.Valid; infer_instance

/-- Days in the months strictly before month `m` of a year with leap flag
`leap` (cumulative month lengths). -/
def daysBeforeMonthB (leap : Bool) (m : Nat) : Nat :=
  if m ≤ 1 then 0
  else if m = 2 then 31
  else if m = 3 then (if leap then 60 else 59)
  else if m = 4 then (if leap then 91 else 90)
  else if m = 5 then (if leap then 121 else 120)
  else if m = 6 then (if leap then 152 else 151)
  else if m = 7 then (if leap then 182 else 181)
  else if m = 8 then (if leap then 213 else 212)
  else if m = 9 then (if leap then 244 else 243)
  else if m = 10 then (if leap then 274 else 273)
  else if m = 11 then (if leap then 305 else 304)
  else if m = 12 then (if leap then 335 else 334)
  else (if leap then 366 else 365)

/-- Ordinal of a date inside its year (1 = Jan 1). -/
def dayOfYear (d : Date) : Nat := daysBeforeMonthB (isLeap d.year) d.month + d.day

/-- Number of days in all years strictly before year `y` (proleptic
Gregorian, as in `datetime.date.toordinal`). -/
def daysBeforeYear (y : Nat) : Nat :=
  365 * (y - 1) + (y - 1) / 4 - (y - 1) / 100 + (y - 1) / 400

/-- `date.toordinal`: day number counted from the epoch. -/
def toOrdinal (d : Date) : Nat := daysBeforeYear d.year + dayOfYear d

/-- `date` subtraction: `(a - b).days`. -/
def dateSub (a b : Date) : Int := (toOrdinal a : Int) - (toOrdinal b : Int)

/-- Python's `date` comparison: lexicographic on (year, month, day). -/
def dateLtPy (a b : Date) : Bool :=
  a.year < b.year ||
    (a.year == b.year && (a.month < b.month ||
      (a.month == b.month && a.day < b.day)))

/-- `date.replace(year=y)`: succeeds iff the new (y, month, day) is a
representable date; raises `ValueError` (here: `none`) otherwise. -/
def replaceYear (d : Date) (y : Nat) : Option Date :=
  if 1 ≤ y ∧ y ≤ 9999 ∧ d.day ≤ daysInMonth y d.month then
    some ⟨y, d.month, d.day⟩
  else
    none

/-- The `datetime(year, month, day)` constructor: validates its arguments. -/
def mkDate (y m d : Nat) : Option Date :=
  if 1 ≤ y ∧ y ≤ 9999 ∧ 1 ≤ m ∧ m ≤ 12 ∧ 1 ≤ d ∧ d ≤ daysInMonth y m then
    some ⟨y, m, d⟩
  else
    none

/-! ## String helpers (ASCII model of the Python string operations used) -/

/-- ASCII decimal digit, as matched by the `\d` class on ASCII data. -/
def isDigitChar (c : Char) : Bool := 48 ≤ c.toNat && c.toNat ≤ 57

/-- Numeric value of a digit character. -/
def digitVal (c : Char) : Nat := c.toNat - 48

/-- The digit character with value `n` (`n ≤ 9`). -/
def digitChar (n : Nat) : Char := Char.ofNat (48 + n)

/-- `str.strip()` on a character list: drop whitespace at both ends. -/
def stripChars (cs : List Char) : List Char :=
  ((cs.dropWhile Char.isWhitespace).reverse.dropWhile Char.isWhitespace).reverse

/-- `str.strip()`. -/
def pyStrip (s : String) : String := ⟨stripChars s.toList⟩

/-- `str.lower()` on the ASCII range. -/
def lowerChar (c : Char) : Char :=
  if 65 ≤ c.toNat ∧ c.toNat ≤ 90 then Char.ofNat (c.toNat + 32) else c

def pyLower (s : String) : String := ⟨s.toList.map lowerChar⟩

/-- Contiguous-sublist test: Python's `needle in hay` for strings. -/
def isInfixList (ns : List Char) : List Char → Bool
  | [] => ns.isEmpty
  | c :: rest => ns.isPrefixOf (c :: rest) || isInfixList ns rest

/-- Python's `needle in hay` for strings. -/
def strIn (needle hay : String) : Bool := isInfixList needle.toList hay.toList

/-- `str.isdigit()` (ASCII model): non-empty and all characters digits. -/
def pyIsDigit (s : String) : Bool :=
  !s.toList.isEmpty && s.toList.all isDigitChar

/-! ## `strftime("%d.%m.%Y")` and `strptime(v, "%d.%m.%Y")` -/

/-- `%d` / `%m`: two digits, zero padded (values are below 100). -/
def pad2Chars (n : Nat) : List Char := [digitChar (n / 10 % 10), digitChar (n % 10)]

/-- `%Y` (glibc): decimal digits without padding.  `datetime` years are at
most 9999, so four digits suffice; the final branch is unreachable. -/
def natChars (n : Nat) : List Char :=
  if n < 10 then [digitChar n]
  else if n < 100 then [digitChar (n / 10), digitChar (n % 10)]
  else if n < 1000 then [digitChar (n / 100), digitChar (n / 10 % 10), digitChar (n % 10)]
  else if n < 10000 then
    [digitChar (n / 1000), digitChar (n / 100 % 10), digitChar (n / 10 % 10), digitChar (n % 10)]
  else []

/-- `date.strftime("%d.%m.%Y")`. -/
def formatDate (d : Date) : String :=
  ⟨pad2Chars d.day ++ '.' :: pad2Chars d.month ++ '.' :: natChars d.year⟩

/-- The `%d` token of `_strptime`: regex `3[01]|[12]\d|0[1-9]|[1-9]`
(one or two digits, value 1..31). -/
def parseDayTok : List Char → Option Nat
  | [c] => if 49 ≤ c.toNat ∧ c.toNat ≤ 57 then some (digitVal c) else none
  | [c1, c2] =>
    if c1 = '3' ∧ (c2 = '0' ∨ c2 = '1') then some (30 + digitVal c2)
    else if (c1 = '1' ∨ c1 = '2') ∧ isDigitChar c2 then
      some (digitVal c1 * 10 + digitVal c2)
    else if c1 = '0' ∧ 49 ≤ c2.toNat ∧ c2.toNat ≤ 57 then some (digitVal c2)
    else none
  | _ => none

/-- The `%m` token of `_strptime`: regex `1[0-2]|0[1-9]|[1-9]`. -/
def parseMonthTok : List Char → Option Nat
  | [c] => if 49 ≤ c.toNat ∧ c.toNat ≤ 57 then some (digitVal c) else none
  | [c1, c2] =>
    if c1 = '1' ∧ (c2 = '0' ∨ c2 = '1' ∨ c2 = '2') then some (10 + digitVal c2)
    else if c1 = '0' ∧ 49 ≤ c2.toNat ∧ c2.toNat ≤ 57 then some (digitVal c2)
    else none
  | _ => none

/-- The `%Y` token of `_strptime`: exactly four digits. -/
def parseYearTok : List Char → Option Nat
  | [a, b, c, d] =>
    if isDigitChar a ∧ isDigitChar b ∧ isDigitChar c ∧ isDigitChar d then
      some (((digitVal a * 10 + digitVal b) * 10 + digitVal c) * 10 + digitVal d)
    else none
  | _ => none

/-- `datetime.strptime(s, "%d.%m.%Y").date()`: the full string must match
`day '.' month '.' year`, and the resulting triple must be a representable
date (the `datetime` constructor re-validates day against month/year and
the year range). -/
def strptimeDMY (s : String) : Option Date :=
  let cs := s.toList
  let dTok := cs.takeWhile (· ≠ '.')
  match cs.dropWhile (· ≠ '.') with
  | c1 :: rest2 =>
    if c1 = '.' then
      let mTok := rest2.takeWhile (· ≠ '.')
      match rest2.dropWhile (· ≠ '.') with
      | c2 :: yTok =>
        if c2 = '.' then
          match parseDayTok dTok, parseMonthTok mTok, parseYearTok yTok with
          | some d, some m, some y =>
            if 1 ≤ y ∧ d ≤ daysInMonth y m then some ⟨y, m, d⟩ else none
          | _, _, _ => none
        else none
      | [] => none
    else none
  | [] => none

/-! ## Field validators (`fields.py`)

Field objects wrap a single `value`; the embedding stores the wrapped
values directly.  Constructors that can raise `ValueError` return
`Except String` carrying the exception message. -/

/-- `Name(value)`: rejects falsy values (the empty string through this API). -/
def mkName (value : String) : Except String String :=
  if value = "" then .error "Name cannot be empty" else .ok value

/-- `Phone(value)` / `Phone.set`: strips, rejects if the result is empty. -/
def mkPhone (value : String) : Except String String :=
  let v := pyStrip value
  if v = "" then .error "Phone cannot be empty" else .ok v

/-- `Birthday(value)` for a string argument: strips, then
`strptime(v, "%d.%m.%Y")`; any parse failure becomes the fixed message. -/
def birthdayParse (value : String) : Option Date := strptimeDMY (pyStrip value)

def mkBirthday (value : String) : Except String Date :=
  match birthdayParse value with
  | some d => .ok d
  | none => .error "Birthday must be in DD.MM.YYYY format"

/-- `Email(value)` / `Address(value)`: strip, no validation. -/
def mkEmail (value : String) : String := pyStrip value

def mkAddress (value : String) : String := pyStrip value

/-! ## `Record` (`record.py`) -/

structure Record where
  name : String
  phones : List String
  birthday : Option Date
  email : Option String
  address : Option String
deriving DecidableEq

/-- `Record(name)`: fresh record with only the name set. -/
def mkRecord (name : String) : Except String Record :=
  (mkName name).map fun n => ⟨n, [], none, none, none⟩

def Record.add_phone (r : Record) (phone : String) : Except String Record :=
  (mkPhone phone).map fun p => { r with phones := r.phones ++ [p] }

def Record.add_birthday (r : Record) (birthday : String) : Except String Record :=
  (mkBirthday birthday).map fun d => { r with birthday := some d }

def Record.add_email (r : Record) (email : String) : Record :=
  { r with email := some (mkEmail email) }

def Record.add_address (r : Record) (address : String) : Record :=
  { r with address := some (mkAddress address) }

/-- The duplicated next-occurrence block of `Record.days_to_birthday`
(record.py lines 52-62) and `AddressBook.get_upcoming_birthdays`
(address_book.py lines 62-72).  The first fallback
`datetime(today.year, 2, 28)` cannot raise for a real `today`; the second
`datetime(next_year, 2, 28)` raises when `next_year` is 10000, and that
`ValueError` is not caught. -/
def candidate1 (birthday today : Date) : Date :=
  match replaceYear birthday today.year with
  | some d => d
  | none => ⟨today.year, 2, 28⟩

def nextBirthdayE (birthday today : Date) : Except String Date :=
  let cand := candidate1 birthday today
  if dateLtPy cand today then
    match replaceYear birthday (today.year + 1) with
    | some d => .ok d
    | none =>
      match mkDate (today.year + 1) 2 28 with
      | some d => .ok d
      | none => .error "year 10000 is out of range"
  else
    .ok cand

/-- `Record.days_to_birthday` with "today" made explicit
(the source reads `datetime.today().date()`). -/
def Record.days_to_birthday (r : Record) (today : Date) :
    Except String (Option Int) :=
  match r.birthday with
  | none => .ok none
  | some b => (nextBirthdayE b today).map fun nb => some (dateSub nb today)

/-! ### Record serialization (`record.py` lines 89-114)

`to_dict` produces a JSON-style object; `from_dict` rebuilds a record,
treating falsy values (absent key, `None`, empty string / empty list) the
way the Python truthiness tests do.  An absent key and a `None` value are
both modelled as `none`. -/

structure RecordDict where
  name : Option String
  nameCap : Option String
  phones : List String
  birthday : Option String
  email : Option String
  address : Option String
deriving DecidableEq

def Record.to_dict (r : Record) : RecordDict :=
  { name := some r.name
    nameCap := none
    phones := r.phones
    birthday := r.birthday.map formatDate
    email := r.email
    address := r.address }

/-- Python truthiness of an optional string: `None` and `""` are falsy. -/
def truthyStr : Option String → Option String
  | none => none
  | some s => if s = "" then none else some s

/-- Python's `name = data.get("name") or data.get("Name")`. -/
def RecordDict.effName (data : RecordDict) : String :=
  match truthyStr data.name with
  | some s => s
  | none => match data.nameCap with
    | some s => s
    | none => ""

/-- The phone loop of `from_dict`: `for ph in data.get("phones", []) or []:
rec.add_phone(ph)`. -/
def fromDictPhones (data : RecordDict) (r : Record) : Except String Record :=
  data.phones.foldlM Record.add_phone r

/-- `bday = data.get("birthday"); if bday: rec.add_birthday(bday)`. -/
def fromDictBirthday (data : RecordDict) (r : Record) : Except String Record :=
  match truthyStr data.birthday with
  | some b => r.add_birthday b
  | none => .ok r

/-- `email = data.get("email"); if email: rec.add_email(email)`. -/
def fromDictEmail (data : RecordDict) (r : Record) : Record :=
  match truthyStr data.email with
  | some e => r.add_email e
  | none => r

/-- `address = data.get("address"); if address: rec.add_address(address)`. -/
def fromDictAddress (data : RecordDict) (r : Record) : Record :=
  match truthyStr data.address with
  | some a => r.add_address a
  | none => r

def Record.from_dict (data : RecordDict) : Except String Record :=
  match mkRecord data.effName with
  | .error e => .error e
  | .ok r =>
    match fromDictPhones data r with
    | .error e => .error e
    | .ok r =>
      match fromDictBirthday data r with
      | .error e => .error e
      | .ok r => .ok (fromDictAddress data (fromDictEmail data r))

/-! ## Python dictionaries as association lists -/

/-- `d[k] = v`: overwrite in place if the key exists, else append. -/
def dictInsert (k : String) (v : α) : List (String × α) → List (String × α)
  | [] => [(k, v)]
  | (k', v') :: rest =>
    if k' = k then (k, v) :: rest else (k', v') :: dictInsert k v rest

/-- `d.get(k)`. -/
def dictGet (k : String) : List (String × α) → Option α
  | [] => none
  | (k', v) :: rest => if k' = k then some v else dictGet k rest

/-- `del d[k]` (removes the entry with key `k`, if any). -/
def dictErase (k : String) : List (String × α) → List (String × α)
  | [] => []
  | (k', v) :: rest =>
    if k' = k then rest else (k', v) :: dictErase k rest

/-- `k in d`. -/
def dictHasKey (k : String) (l : List (String × α)) : Bool :=
  l.any fun p => p.1 = k

/-! ## `AddressBook` (`address_book.py`) -/

structure AddressBook where
  data : List (String × Record)
deriving DecidableEq

def AddressBook.add_record (book : AddressBook) (r : Record) : AddressBook :=
  ⟨dictInsert r.name r book.data⟩

def AddressBook.find (book : AddressBook) (name : String) : Option Record :=
  dictGet name book.data

def AddressBook.to_dict (book : AddressBook) : List (String × RecordDict) :=
  book.data.map fun p => (p.1, p.2.to_dict)

/-- `from_dict`: a dict comprehension over `data.items()` — the keys of
the input mapping are copied as they are. -/
def AddressBook.from_dict (data : List (String × RecordDict)) :
    Except String AddressBook :=
  (data.mapM fun p => (Record.from_dict p.2).map fun r => (p.1, r)).map
    AddressBook.mk

/-- `from_list`: rebuilds the keyed mapping by `add_record`-ing each
parsed record. -/
def AddressBook.from_list (items : List RecordDict) :
    Except String AddressBook :=
  items.foldlM (fun book item => (Record.from_dict item).map book.add_record)
    ⟨[]⟩

/-- Loop body list of `get_upcoming_birthdays` (address_book.py lines
56-76), iterating the records in insertion order and filling the
`upcoming` dict. -/
def upcomingLoop (today : Date) (days : Int) :
    List (String × Record) → List (String × String) →
      Except String (List (String × String))
  | [], acc => .ok acc
  | (_, r) :: rest, acc =>
    match r.birthday with
    | none => upcomingLoop today days rest acc
    | some b =>
      match nextBirthdayE b today with
      | .error e => .error e
      | .ok nb =>
        let delta := dateSub nb today
        if 0 ≤ delta ∧ delta ≤ days then
          upcomingLoop today days rest (dictInsert r.name (formatDate nb) acc)
        else
          upcomingLoop today days rest acc

/-- `get_upcoming_birthdays(days)` with "today" made explicit.  `days`
is `none` when the caller passes `None`. -/
def AddressBook.get_upcoming_birthdays (book : AddressBook) (today : Date)
    (days : Option Int) : Except String (List (String × String)) :=
  let days := match days with | none => 7 | some d => d
  let days := if days < 0 then 0 else days
  upcomingLoop today days book.data []

/-- Modelled from the spec: `AddressBook.delete` is referenced by the
module docstring of `address_book.py` ("Provide search, delete, and
iteration methods") and called by `delete_contact` in
`contacts/commands.py`, but its definition is not among the provided
sources.  Per the spec (section 4.3): "delete(name): removes by key;
returns whether a record was present." -/
def AddressBook.delete (book : AddressBook) (name : String) :
    Bool × AddressBook :=
  (dictHasKey name book.data, ⟨dictErase name book.data⟩)

/-! ## Contact commands (`contacts/commands.py`)

Each handler returns the printed string together with the resulting book.
A `ValueError` raised inside the handler is converted to its message by
the `@input_error` decorator (`core.py`), which the embeddings inline.
In-place mutation of a record object found in the dict is modelled by
re-writing the value stored at the key under which it was found
(`dictInsert` at an existing key keeps its position). -/

/-- The ASCII apostrophe used inside the Python f-string messages. -/
def sq : String := ⟨[Char.ofNat 39]⟩

/-- `add_contact(args, book)` (commands.py lines 27-41). -/
def add_contact (args : List String) (book : AddressBook) :
    String × AddressBook :=
  if args.length < 2 ∨ (args.getD 1 "").length ≠ 10 ∨
      ¬pyIsDigit (args.getD 1 "") then
    ("Usage: add [name] [phone number] with 10 digits", book)
  else
    let name := args.getD 0 ""
    let phone := args.getD 1 ""
    match book.find name with
    | none =>
      match mkRecord name with
      | .error e => (e, book)
      | .ok r =>
        let book := book.add_record r
        match r.add_phone phone with
        | .error e => (e, book)
        | .ok r' =>
          ("Contact " ++ name ++ " created.", ⟨dictInsert name r' book.data⟩)
    | some r =>
      match r.add_phone phone with
      | .error e => (e, book)
      | .ok r' =>
        ("Contact " ++ name ++ " updated.", ⟨dictInsert name r' book.data⟩)

/-- `add_birthday(args, book)` (commands.py lines 79-90).  When the record
is absent it is created and inserted *before* the date is validated. -/
def add_birthday (args : List String) (book : AddressBook) :
    String × AddressBook :=
  match args with
  | [name, bday] =>
    (match book.find name with
    | some r =>
      match r.add_birthday bday with
      | .error e => (e, book)
      | .ok r' =>
        ("Birthday for " ++ name ++ " has been added.",
          ⟨dictInsert name r' book.data⟩)
    | none =>
      match mkRecord name with
      | .error e => (e, book)
      | .ok r =>
        let book := book.add_record r
        match r.add_birthday bday with
        | .error e => (e, book)
        | .ok r' =>
          ("Birthday for " ++ name ++ " has been added.",
            ⟨dictInsert name r' book.data⟩))
  | _ => ("Usage: add-birthday [name] [date in DD.MM.YYYY format]", book)

/-- `delete_contact(args, book)` (commands.py lines 156-168). -/
def delete_contact (args : List String) (book : AddressBook) :
    String × AddressBook :=
  match args with
  | [name] =>
    let res := book.delete name
    (if res.1 then "Contact " ++ name ++ " deleted." else "Contact not found.",
      res.2)
  | _ => ("Usage: delete-contact [name]", book)

/-- Match test of one contact against the lower-cased query
(the `continue`-chained conditions of commands.py lines 183-193).
`contact.email` / `contact.address` are objects, truthy whenever set. -/
def matchesContact (ql : String) (c : Record) : Bool :=
  strIn ql (pyLower c.name) ||
  c.phones.any (fun p => strIn ql (pyLower p)) ||
  (match c.email with | some e => strIn ql (pyLower e) | none => false) ||
  (match c.address with | some a => strIn ql (pyLower a) | none => false)

/-- The record list collected by `search_contacts` (commands.py lines
178-193) for a given query string (`query = " ".join(args)` upstream). -/
def searchContactsCore (book : AddressBook) (query : String) : List Record :=
  let ql := pyLower (pyStrip query)
  (book.data.map Prod.snd).filter (matchesContact ql)

/-! ## Notes (`notes/note.py`, `notes/notebook.py`) -/

structure Note where
  title : String
  content : String
  tags : List String
  created_at : String
  updated_at : String
deriving DecidableEq

/-- `Note(title, content, tags)` with the creation instant made explicit
(the source reads `datetime.now().isoformat()`). -/
def mkNote (title content : String) (tags : Option (List String))
    (now : String) : Note :=
  ⟨title, content, (match tags with | none => [] | some t => t), now, now⟩

structure Notebook where
  notes : List (String × Note)
deriving DecidableEq

/-- `Notebook.add_note(title, content, tags)` (notebook.py lines 20-36). -/
def Notebook.add_note (nb : Notebook) (title content : String)
    (tags : Option (List String)) (now : String) : String × Notebook :=
  if dictHasKey title nb.notes then
    ("Note with title " ++ sq ++ title ++ sq ++ " already exists.", nb)
  else
    ("Note " ++ sq ++ title ++ sq ++ " added successfully.",
      ⟨dictInsert title (mkNote title content tags now) nb.notes⟩)

/-! ## Calendar lemmas -/

theorem dayOfYear_pos (d : Date) (h : 1 ≤ d.day) : 1 ≤ dayOfYear d := by
  unfold dayOfYear
  omega

theorem dayOfYear_le (d : Date) (hv : d.Valid) :
    dayOfYear d ≤ if isLeap d.year then 366 else 365 := by
  obtain ⟨_, _, hm1, hm12, _, hd2⟩ := hv
  unfold dayOfYear
  unfold daysInMonth at hd2
  cases hL : isLeap d.year <;>
    simp only [hL] at hd2 ⊢ <;>
    interval_cases hm : d.month <;>
    simp_all [daysBeforeMonthB, daysInMonthB] <;> omega

theorem isLeap_eq_true_iff (y : Nat) :
    isLeap y = true ↔ ((y % 4 = 0 ∧ ¬y % 100 = 0) ∨ y % 400 = 0) := by
  unfold isLeap
  simp only [Bool.or_eq_true, Bool.and_eq_true, beq_iff_eq, bne_iff_ne, ne_eq]

set_option maxHeartbeats 1600000 in
theorem daysBeforeYear_succ (y : Nat) (hy : 1 ≤ y) :
    daysBeforeYear (y + 1) =
      daysBeforeYear y + (if isLeap y then 366 else 365) := by
  unfold daysBeforeYear
  simp only [Nat.add_sub_cancel]
  by_cases c : isLeap y = true
  · rw [if_pos c]
    rw [isLeap_eq_true_iff] at c
    rcases c with ⟨c4, c100⟩ | c400 <;> omega
  · rw [if_neg c]
    rw [isLeap_eq_true_iff] at c
    push_neg at c
    obtain ⟨c1, c400⟩ := c
    by_cases c4 : y % 4 = 0
    · have c100 := c1 c4
      omega
    · omega

theorem daysBeforeMonthB_step (leap : Bool) (m : Nat) (h1 : 1 ≤ m)
    (h2 : m ≤ 12) :
    daysBeforeMonthB leap m + daysInMonthB leap m =
      daysBeforeMonthB leap (m + 1) := by
  cases leap <;> interval_cases m <;> decide

theorem daysBeforeMonthB_le (leap : Bool) (m1 m2 : Nat) (h : m1 ≤ m2)
    (h2 : m2 ≤ 13) :
    daysBeforeMonthB leap m1 ≤ daysBeforeMonthB leap m2 := by
  have h1 : m1 ≤ 13 := by omega
  cases leap <;> interval_cases m1 <;> interval_cases m2 <;> decide

theorem daysBeforeMonthB_mono (leap : Bool) (m1 m2 : Nat) (h1 : 1 ≤ m1)
    (h : m1 < m2) (h2 : m2 ≤ 12) :
    daysBeforeMonthB leap m1 + daysInMonthB leap m1 ≤
      daysBeforeMonthB leap m2 := by
  rw [daysBeforeMonthB_step leap m1 h1 (by omega)]
  exact daysBeforeMonthB_le leap (m1 + 1) m2 (by omega) (by omega)

theorem dateLtPy_iff (a b : Date) :
    dateLtPy a b = true ↔
      (a.year < b.year ∨ (a.year = b.year ∧
        (a.month < b.month ∨ (a.month = b.month ∧ a.day < b.day)))) := by
  unfold dateLtPy
  simp only [Bool.or_eq_true, Bool.and_eq_true, beq_iff_eq, decide_eq_true_eq]

/-- If `a` is not lexicographically before `b` and both lie in the same
year, the ordinal of `a` is at least that of `b`. -/
theorem toOrdinal_ge_sameYear (a b : Date) (hy : a.year = b.year)
    (hb : b.Valid) (ham1 : 1 ≤ a.month) (ham2 : a.month ≤ 12)
    (had : 1 ≤ a.day) (hlt : dateLtPy a b = false) :
    toOrdinal b ≤ toOrdinal a := by
  obtain ⟨-, -, hbm1, hbm12, hbd1, hbd2⟩ := hb
  have hn : ¬(a.year < b.year ∨ (a.year = b.year ∧
      (a.month < b.month ∨ (a.month = b.month ∧ a.day < b.day)))) := by
    rw [← dateLtPy_iff]
    simp [hlt]
  push_neg at hn
  obtain ⟨-, hn⟩ := hn
  obtain ⟨hm, hd⟩ := hn hy
  unfold toOrdinal dayOfYear
  rw [hy]
  unfold daysInMonth at hbd2
  rcases Nat.lt_or_ge b.month a.month with hmlt | hmge
  · have hstep := daysBeforeMonthB_mono (isLeap b.year) b.month a.month hbm1
      hmlt ham2
    omega
  · have hmeq : a.month = b.month := by omega
    have hdge := hd hmeq
    rw [hmeq]
    omega

/-- A date in the following year has an ordinal at least that of any
valid date of the current year. -/
theorem toOrdinal_ge_nextYear (a b : Date) (hb : b.Valid)
    (hy : a.year = b.year + 1) (had : 1 ≤ a.day) :
    toOrdinal b ≤ toOrdinal a := by
  have h1 := dayOfYear_le b hb
  have h2 := daysBeforeYear_succ b.year hb.1
  have h3 := dayOfYear_pos a had
  unfold toOrdinal
  rw [hy, h2]
  cases hL : isLeap b.year <;> simp only [hL] at h1 h2 ⊢ <;> omega

/-! ## The next-occurrence algorithm -/

theorem daysInMonthB_ne_two (l l' : Bool) (m : Nat) (hm : m ≠ 2) :
    daysInMonthB l m = daysInMonthB l' m := by
  unfold daysInMonthB
  simp [hm]

theorem daysInMonthB_two_ge (l : Bool) : 28 ≤ daysInMonthB l 2 := by
  cases l <;> decide

/-- For a valid stored date, `date.replace(year=y)` (with `y` in range)
fails exactly on Feb 29 into a non-leap year. -/
theorem replaceYear_eq (b : Date) (y : Nat) (hv : b.Valid) (hy1 : 1 ≤ y)
    (hy2 : y ≤ 9999) :
    replaceYear b y =
      if b.month = 2 ∧ b.day = 29 ∧ isLeap y = false then none
      else some ⟨y, b.month, b.day⟩ := by
  obtain ⟨-, -, -, -, -, h6⟩ := hv
  unfold daysInMonth at h6
  unfold replaceYear daysInMonth
  by_cases hm : b.month = 2
  · rw [hm] at h6 ⊢
    have hd29 : b.day ≤ 29 := by
      revert h6
      unfold daysInMonthB
      cases isLeap b.year <;> simp <;> omega
    cases hyl : isLeap y
    · by_cases hd : b.day = 29
      · have hval : daysInMonthB false 2 = 28 := by decide
        rw [if_neg, if_pos ⟨rfl, hd, rfl⟩]
        rw [hval]
        intro hcon
        omega
      · rw [if_pos, if_neg]
        · intro hcon
          exact hd hcon.2.1
        · have hval : daysInMonthB false 2 = 28 := by decide
          rw [hval]
          refine ⟨hy1, hy2, by omega⟩
    · rw [if_pos, if_neg]
      · intro hcon
        simp at hcon
      · have hval : daysInMonthB true 2 = 29 := by decide
        rw [hval]
        refine ⟨hy1, hy2, by omega⟩
  · have he : daysInMonthB (isLeap y) b.month =
        daysInMonthB (isLeap b.year) b.month :=
      daysInMonthB_ne_two _ _ _ hm
    rw [he, if_pos ⟨hy1, hy2, h6⟩, if_neg (fun hcon => hm hcon.1)]

/-- The year-substitution step in the spec's words: put the stored
month/day into year `y`, falling back to Feb 28 when the stored date is
Feb 29 and `y` is not leap. -/
def substituteYear (b : Date) (y : Nat) : Date :=
  if b.month = 2 ∧ b.day = 29 ∧ isLeap y = false then ⟨y, 2, 28⟩
  else ⟨y, b.month, b.day⟩

/-- The next occurrence in the spec's words: substitute the current year;
if the candidate is strictly before today, substitute next year instead. -/
def nextOccurrenceSpec (b today : Date) : Date :=
  let c := substituteYear b today.year
  if dateLtPy c today then substituteYear b (today.year + 1) else c

theorem candidate1_eq (b today : Date) (hv : b.Valid) (ht : today.Valid) :
    candidate1 b today = substituteYear b today.year := by
  unfold candidate1 substituteYear
  rw [replaceYear_eq b today.year hv ht.1 ht.2.1]
  by_cases hc : b.month = 2 ∧ b.day = 29 ∧ isLeap today.year = false
  · rw [if_pos hc, if_pos hc]
  · rw [if_neg hc, if_neg hc]

/-- The uncaught-`ValueError` case of the duplicated block: today is in
year 9999 and the current-year candidate has already passed, so the code
attempts `datetime(10000, 2, 28)`. -/
def birthdayOverflow (b today : Date) : Prop :=
  today.year = 9999 ∧ dateLtPy (candidate1 b today) today = true

instance (b today : Date) : Decidable (birthdayOverflow b today) := by
  unfold birthdayOverflow; infer_instance

theorem substituteYear_year (b : Date) (y : Nat) :
    (substituteYear b y).year = y := by
  unfold substituteYear; split <;> rfl

theorem substituteYear_day_pos (b : Date) (y : Nat) (h : 1 ≤ b.day) :
    1 ≤ (substituteYear b y).day := by
  unfold substituteYear
  split
  · simp
  · simpa using h

theorem substituteYear_month (b : Date) (y : Nat) (h1 : 1 ≤ b.month)
    (h2 : b.month ≤ 12) :
    1 ≤ (substituteYear b y).month ∧ (substituteYear b y).month ≤ 12 := by
  unfold substituteYear
  split
  · simp
  · simp only []
    exact ⟨h1, h2⟩

/-- Outside the overflow case, the duplicated code block computes exactly
the spec's next occurrence. -/
theorem nextBirthdayE_eq (b today : Date) (hv : b.Valid) (ht : today.Valid)
    (hnof : ¬ birthdayOverflow b today) :
    nextBirthdayE b today = .ok (nextOccurrenceSpec b today) := by
  unfold birthdayOverflow at hnof
  rw [candidate1_eq b today hv ht] at hnof
  unfold nextBirthdayE nextOccurrenceSpec
  simp only [candidate1_eq b today hv ht]
  by_cases hlt : dateLtPy (substituteYear b today.year) today = true
  · have hy9 : today.year ≠ 9999 := fun h => hnof ⟨h, hlt⟩
    have hy2 : today.year + 1 ≤ 9999 := by
      have := ht.2.1
      omega
    rw [replaceYear_eq b (today.year + 1) hv (by omega) hy2]
    simp only [hlt, if_true]
    by_cases hc : b.month = 2 ∧ b.day = 29 ∧ isLeap (today.year + 1) = false
    · rw [if_pos hc]
      have hmk : mkDate (today.year + 1) 2 28 = some ⟨today.year + 1, 2, 28⟩ := by
        unfold mkDate daysInMonth
        rw [if_pos ⟨by omega, hy2, by omega, by omega, by omega,
          daysInMonthB_two_ge _⟩]
      rw [hmk]
      unfold substituteYear
      rw [if_pos hc]
    · rw [if_neg hc]
      unfold substituteYear
      rw [if_neg hc]
  · simp only [if_neg hlt]

/-- The overflow case really raises: the block returns the modelled
`ValueError` text of `datetime(10000, 2, 28)`. -/
theorem nextBirthdayE_overflow (b today : Date) (hof : birthdayOverflow b today) :
    nextBirthdayE b today = .error "year 10000 is out of range" := by
  obtain ⟨h9, hlt⟩ := hof
  unfold nextBirthdayE
  simp only [hlt, if_true]
  have hr : replaceYear b (today.year + 1) = none := by
    unfold replaceYear
    rw [h9, if_neg]
    intro hcon
    exact absurd hcon.2.1 (by omega)
  have hm : mkDate (today.year + 1) 2 28 = none := by
    unfold mkDate
    rw [h9, if_neg]
    intro hcon
    exact absurd hcon.2.1 (by omega)
  rw [hr, hm]

/-- The spec-side next occurrence is never before today. -/
theorem nextOccurrenceSpec_ge (b today : Date) (hv : b.Valid)
    (ht : today.Valid) :
    0 ≤ dateSub (nextOccurrenceSpec b today) today := by
  obtain ⟨-, -, hm1, hm2, hd1, -⟩ := hv
  unfold nextOccurrenceSpec dateSub
  by_cases hlt : dateLtPy (substituteYear b today.year) today = true
  · simp only [hlt, if_true]
    have hord := toOrdinal_ge_nextYear (substituteYear b (today.year + 1))
      today ht (substituteYear_year b (today.year + 1))
      (substituteYear_day_pos b (today.year + 1) hd1)
    omega
  · simp only [if_neg hlt]
    obtain ⟨hsm1, hsm2⟩ := substituteYear_month b today.year hm1 hm2
    have hord := toOrdinal_ge_sameYear (substituteYear b today.year) today
      (substituteYear_year b today.year) ht hsm1 hsm2
      (substituteYear_day_pos b today.year hd1)
      (Bool.not_eq_true _ ▸ eq_false_of_ne_true hlt)
    omega

/-! ## Claim C1 -/

/-- Claim C1, as stated, fails at the edge of the `datetime` year range:
for a record with birthday 01.01.2000 and today = 31.12.9999 the code does
not return a day count at all — the retry with next year attempts
`datetime(10000, 2, 28)`, whose `ValueError` is not caught, so
`days_to_birthday` raises instead of returning a non-negative count. -/
theorem claim_C1_counterexample :
    Record.days_to_birthday ⟨"Ann", [], some ⟨2000, 1, 1⟩, none, none⟩
        ⟨9999, 12, 31⟩ =
      .error "year 10000 is out of range" := by
  rfl

/-- Claim C1 (amended): for every record with a stored birthday and every
value of today, provided the computation stays inside the `datetime` year
range (not: today in year 9999 with the current-year candidate already
past), `days_to_birthday` returns the day count to the next occurrence
built by substituting the current year into the stored month/day, with the
Feb-29→Feb-28 fallback in non-leap years, repeating with next year when
the candidate is strictly before today; the count is always ≥ 0, and for
birthday 29.02.2000 and today = 28.02.2023 the result is 0. -/
theorem claim_C1 :
    (∀ (r : Record) (b today : Date), r.birthday = some b → b.Valid →
      today.Valid → ¬ birthdayOverflow b today →
      r.days_to_birthday today =
          .ok (some (dateSub (nextOccurrenceSpec b today) today)) ∧
        0 ≤ dateSub (nextOccurrenceSpec b today) today) ∧
    Record.days_to_birthday ⟨"Ann", [], some ⟨2000, 2, 29⟩, none, none⟩
        ⟨2023, 2, 28⟩ = .ok (some 0) := by
  constructor
  · intro r b today hb hv ht hnof
    refine ⟨?_, nextOccurrenceSpec_ge b today hv ht⟩
    unfold Record.days_to_birthday
    rw [hb]
    show Except.map _ (nextBirthdayE b today) = _
    rw [nextBirthdayE_eq b today hv ht hnof]
    rfl
  · rfl

/-- Witness for C1: the amended theorem applied to a concrete record,
birthday 15.03.2000 and today = 10.03.2023. -/
theorem claim_C1_witness :
    Record.days_to_birthday ⟨"Bob", [], some ⟨2000, 3, 15⟩, none, none⟩
        ⟨2023, 3, 10⟩ =
      .ok (some (dateSub (nextOccurrenceSpec ⟨2000, 3, 15⟩ ⟨2023, 3, 10⟩)
        ⟨2023, 3, 10⟩)) ∧
      0 ≤ dateSub (nextOccurrenceSpec ⟨2000, 3, 15⟩ ⟨2023, 3, 10⟩)
        ⟨2023, 3, 10⟩ :=
  claim_C1.1 ⟨"Bob", [], some ⟨2000, 3, 15⟩, none, none⟩ ⟨2000, 3, 15⟩
    ⟨2023, 3, 10⟩ rfl (by decide) (by decide) (by decide)

/-! ## Claim C2 -/

theorem dictInsert_fresh (k : String) (v : α) (acc : List (String × α))
    (h : ∀ q ∈ acc, q.1 ≠ k) :
    dictInsert k v acc = acc ++ [(k, v)] := by
  induction acc with
  | nil => rfl
  | cons q rest ih =>
    unfold dictInsert
    rw [if_neg (h q (by simp))]
    rw [ih (fun q hq => h q (by simp [hq]))]
    simp

/-- The body of the claim's description of the returned mapping: a record
with a birthday whose next-occurrence day-delta lies in `[0, days]`,
mapped to the formatted next occurrence. -/
def upcomingEntry (today : Date) (days : Int) (r : Record) :
    Option (String × String) :=
  match r.birthday with
  | none => none
  | some b =>
    let nb := nextOccurrenceSpec b today
    if 0 ≤ dateSub nb today ∧ dateSub nb today ≤ days then
      some (r.name, formatDate nb)
    else none

theorem upcomingLoop_cons_none (today : Date) (days : Int) (k : String)
    (r : Record) (rest : List (String × Record))
    (acc : List (String × String)) (hb : r.birthday = none) :
    upcomingLoop today days ((k, r) :: rest) acc =
      upcomingLoop today days rest acc := by
  simp only [upcomingLoop]
  rw [hb]

theorem upcomingLoop_cons_ok (today : Date) (days : Int) (k : String)
    (r : Record) (rest : List (String × Record))
    (acc : List (String × String)) (b nb : Date) (hb : r.birthday = some b)
    (hnb : nextBirthdayE b today = .ok nb) :
    upcomingLoop today days ((k, r) :: rest) acc =
      if 0 ≤ dateSub nb today ∧ dateSub nb today ≤ days then
        upcomingLoop today days rest (dictInsert r.name (formatDate nb) acc)
      else upcomingLoop today days rest acc := by
  simp only [upcomingLoop]
  rw [hb]
  simp only [hnb]

theorem upcomingEntry_none (today : Date) (days : Int) (r : Record)
    (hb : r.birthday = none) : upcomingEntry today days r = none := by
  unfold upcomingEntry
  rw [hb]

theorem upcomingEntry_some (today : Date) (days : Int) (r : Record)
    (b : Date) (hb : r.birthday = some b) :
    upcomingEntry today days r =
      if 0 ≤ dateSub (nextOccurrenceSpec b today) today ∧
          dateSub (nextOccurrenceSpec b today) today ≤ days then
        some (r.name, formatDate (nextOccurrenceSpec b today))
      else none := by
  unfold upcomingEntry
  rw [hb]

theorem upcomingLoop_eq (today : Date) (days : Int)
    (l : List (String × Record)) (acc : List (String × String))
    (hv : ∀ p ∈ l, ∀ b, p.2.birthday = some b →
      b.Valid ∧ ¬ birthdayOverflow b today)
    (ht : today.Valid)
    (hnd : (l.map fun p => p.2.name).Nodup)
    (hfresh : ∀ p ∈ l, ∀ q ∈ acc, q.1 ≠ p.2.name) :
    upcomingLoop today days l acc =
      .ok (acc ++ l.filterMap fun p => upcomingEntry today days p.2) := by
  induction l generalizing acc with
  | nil => simp [upcomingLoop]
  | cons p rest ih =>
    obtain ⟨k, r⟩ := p
    have hv1 : ∀ p ∈ rest, ∀ b, p.2.birthday = some b →
        b.Valid ∧ ¬ birthdayOverflow b today :=
      fun q hq => hv q (List.mem_cons_of_mem _ hq)
    have hnd1 : (rest.map fun p => p.2.name).Nodup := by
      simpa using hnd.of_cons
    have hni : r.name ∉ rest.map fun p => p.2.name := by
      simp only [List.map_cons, List.nodup_cons] at hnd
      exact hnd.1
    rw [List.filterMap_cons]
    cases hb : r.birthday with
    | none =>
      rw [upcomingLoop_cons_none today days k r rest acc hb]
      show _ = Except.ok (acc ++ _)
      rw [upcomingEntry_none today days (k, r).2 hb]
      exact ih acc hv1 hnd1 (fun q hq => hfresh q (List.mem_cons_of_mem _ hq))
    | some b =>
      obtain ⟨hbv, hbnof⟩ := hv (k, r) (List.mem_cons_self _ _) b hb
      rw [upcomingLoop_cons_ok today days k r rest acc b
        (nextOccurrenceSpec b today) hb (nextBirthdayE_eq b today hbv ht hbnof)]
      rw [upcomingEntry_some today days (k, r).2 b hb]
      by_cases hwin : 0 ≤ dateSub (nextOccurrenceSpec b today) today ∧
          dateSub (nextOccurrenceSpec b today) today ≤ days
      · rw [if_pos hwin, if_pos hwin]
        have hins : dictInsert r.name (formatDate (nextOccurrenceSpec b today))
            acc = acc ++ [(r.name, formatDate (nextOccurrenceSpec b today))] :=
          dictInsert_fresh _ _ acc
            (fun q hq => hfresh (k, r) (List.mem_cons_self _ _) q hq)
        rw [hins]
        rw [ih (acc ++ [(r.name, formatDate (nextOccurrenceSpec b today))]) hv1
          hnd1 ?hfr]
        · simp
        case hfr =>
          intro q hq x hx
          rcases List.mem_append.mp hx with hx | hx
          · exact hfresh q (List.mem_cons_of_mem _ hq) x hx
          · simp only [List.mem_singleton] at hx
            rw [hx]
            show r.name ≠ q.2.name
            intro hcon
            exact hni (by rw [hcon]; exact List.mem_map_of_mem (fun p => p.2.name) hq)
      · rw [if_neg hwin, if_neg hwin]
        exact ih acc hv1 hnd1 (fun q hq => hfresh q (List.mem_cons_of_mem _ hq))

/-- Claim C2, as stated, fails for the same year-range reason as C1: for a
book with one record (birthday 01.01.2000) and today = 31.12.9999,
`get_upcoming_birthdays(7)` does not return a mapping — the uncaught
`datetime(10000, 2, 28)` `ValueError` propagates. -/
theorem claim_C2_counterexample :
    AddressBook.get_upcoming_birthdays
        ⟨[("Ann", ⟨"Ann", [], some ⟨2000, 1, 1⟩, none, none⟩)]⟩
        ⟨9999, 12, 31⟩ (some 7) =
      .error "year 10000 is out of range" := by
  rfl

/-- Claim C2 (amended): for every book with pairwise-distinct record names
whose stored birthdays are valid dates, and every valid today for which no
record hits the year-9999 overflow, `get_upcoming_birthdays(d)` (d ≥ 0)
returns exactly the records that have a birthday and whose next-occurrence
day-delta from today lies in [0, d], each mapped to the next occurrence
formatted as DD.MM.YYYY; passing `None` behaves as d = 7, and every
negative d behaves as d = 0. -/
theorem claim_C2 :
    (∀ (book : AddressBook) (today : Date),
      book.get_upcoming_birthdays today none =
        book.get_upcoming_birthdays today (some 7)) ∧
    (∀ (book : AddressBook) (today : Date) (d : Int), d < 0 →
      book.get_upcoming_birthdays today (some d) =
        book.get_upcoming_birthdays today (some 0)) ∧
    (∀ (book : AddressBook) (today : Date) (d : Int), 0 ≤ d →
      today.Valid →
      (∀ p ∈ book.data, ∀ b, p.2.birthday = some b →
        b.Valid ∧ ¬ birthdayOverflow b today) →
      (book.data.map fun p => p.2.name).Nodup →
      book.get_upcoming_birthdays today (some d) =
        .ok (book.data.filterMap fun p => upcomingEntry today d p.2)) := by
  refine ⟨fun book today => rfl, fun book today d hd => ?_, ?_⟩
  · show upcomingLoop today (if d < 0 then 0 else d) book.data [] =
      upcomingLoop today (if (0 : Int) < 0 then 0 else 0) book.data []
    rw [if_pos hd, if_neg (lt_irrefl 0)]
  · intro book today d hd ht hv hnd
    show upcomingLoop today (if d < 0 then 0 else d) book.data [] = _
    rw [if_neg (not_lt.mpr hd)]
    rw [upcomingLoop_eq today d book.data [] hv ht hnd (by simp)]
    simp

/-- Witness for C2: the amended characterization applied to a concrete
one-record book (birthday 15.03.2000, today = 10.03.2023, window 7). -/
theorem claim_C2_witness :
    AddressBook.get_upcoming_birthdays
        ⟨[("Bob", ⟨"Bob", [], some ⟨2000, 3, 15⟩, none, none⟩)]⟩
        ⟨2023, 3, 10⟩ (some 7) =
      .ok ([("Bob", ⟨"Bob", [], some ⟨2000, 3, 15⟩, none, none⟩)].filterMap
        fun p => upcomingEntry ⟨2023, 3, 10⟩ 7 p.2) :=
  claim_C2.2.2 ⟨[("Bob", ⟨"Bob", [], some ⟨2000, 3, 15⟩, none, none⟩)]⟩
    ⟨2023, 3, 10⟩ 7 (by decide) (by decide) (by decide) (by decide)

/-! ## Claim C4 -/

instance optionBExDecidable {α : Type} {p : α → Prop} [DecidablePred p] :
    (o : Option α) → Decidable (∃ x ∈ o, p x)
  | none => isFalse (by simp)
  | some a => decidable_of_iff (p a) (by simp)

/-- The claim's match predicate, literally as stated: the lower-cased
query is a substring of the lower-cased name, OR of some phone value
compared case-sensitively (phones not lower-cased), OR of the lower-cased
email when set, OR of the lower-cased address when set. -/
def MatchesC4Claim (query : String) (c : Record) : Prop :=
  strIn (pyLower (pyStrip query)) (pyLower c.name) = true ∨
  (∃ p ∈ c.phones, strIn (pyLower (pyStrip query)) p = true) ∨
  (∃ e ∈ c.email, strIn (pyLower (pyStrip query)) (pyLower e) = true) ∨
  (∃ a ∈ c.address, strIn (pyLower (pyStrip query)) (pyLower a) = true)

/-- The amended match predicate: identical except that phone values are
lower-cased before the substring test, like every other field. -/
def MatchesC4 (query : String) (c : Record) : Prop :=
  strIn (pyLower (pyStrip query)) (pyLower c.name) = true ∨
  (∃ p ∈ c.phones, strIn (pyLower (pyStrip query)) (pyLower p) = true) ∨
  (∃ e ∈ c.email, strIn (pyLower (pyStrip query)) (pyLower e) = true) ∨
  (∃ a ∈ c.address, strIn (pyLower (pyStrip query)) (pyLower a) = true)

instance (query : String) (c : Record) : Decidable (MatchesC4Claim query c) := by
  unfold MatchesC4Claim; infer_instance

instance (query : String) (c : Record) : Decidable (MatchesC4 query c) := by
  unfold MatchesC4; infer_instance

/-- Claim C4, as stated, is refuted by a contact whose phone value
contains an upper-case letter: the code lower-cases phone values too
(commands.py line 186: `ql in p.value.lower()`), so query "a" matches
phone "777A" although the claim's case-sensitive comparison does not. -/
theorem claim_C4_counterexample :
    searchContactsCore ⟨[("n1", ⟨"n1", ["777A"], none, none, none⟩)]⟩ "a" ≠
      ([("n1", (⟨"n1", ["777A"], none, none, none⟩ : Record))].map
        Prod.snd).filter (fun c => decide (MatchesC4Claim "a" c)) := by
  decide

theorem matchesContact_iff (query : String) (c : Record) :
    matchesContact (pyLower (pyStrip query)) c = true ↔ MatchesC4 query c := by
  unfold matchesContact MatchesC4
  cases c.email <;> cases c.address <;>
    simp [List.any_eq_true, or_assoc]

/-- Claim C4 (amended): for every collection and query, the contact search
returns exactly the records, in collection iteration order, matching the
claim's predicate with the phone comparison also made case-insensitive
(phone values are lower-cased like name, email and address). -/
theorem claim_C4 :
    ∀ (book : AddressBook) (query : String),
      searchContactsCore book query =
        (book.data.map Prod.snd).filter fun c => decide (MatchesC4 query c) := by
  intro book query
  show (book.data.map Prod.snd).filter (matchesContact (pyLower (pyStrip query))) = _
  apply List.filter_congr
  intro c _
  rw [Bool.eq_iff_iff, decide_eq_true_iff]
  exact matchesContact_iff query c

/-! ## Claim C5 -/

theorem dictGet_cons (k : String) (a : String) (v : α)
    (rest : List (String × α)) :
    dictGet k ((a, v) :: rest) = if a = k then some v else dictGet k rest :=
  rfl

theorem dictErase_cons (k : String) (a : String) (v : α)
    (rest : List (String × α)) :
    dictErase k ((a, v) :: rest) =
      if a = k then rest else (a, v) :: dictErase k rest :=
  rfl

theorem dictGet_eq_none_of_not_mem (k : String) (l : List (String × α))
    (h : k ∉ l.map Prod.fst) : dictGet k l = none := by
  induction l with
  | nil => rfl
  | cons p rest ih =>
    obtain ⟨a, v⟩ := p
    rw [dictGet_cons, if_neg, ih]
    · intro hcon
      exact h (by simp [hcon])
    · intro hcon
      exact h (by simp [hcon])

theorem dictHasKey_eq_isSome (k : String) (l : List (String × α)) :
    dictHasKey k l = (dictGet k l).isSome := by
  induction l with
  | nil => rfl
  | cons p rest ih =>
    obtain ⟨a, v⟩ := p
    rw [dictGet_cons]
    unfold dictHasKey
    by_cases h : a = k
    · simp [h]
    · rw [if_neg h]
      simp only [List.any_cons]
      rw [show (decide ((a, v).1 = k)) = false by simp [h]]
      rw [Bool.false_or]
      exact ih

theorem dictGet_erase_self (k : String) (l : List (String × α))
    (hnd : (l.map Prod.fst).Nodup) : dictGet k (dictErase k l) = none := by
  induction l with
  | nil => rfl
  | cons p rest ih =>
    obtain ⟨a, v⟩ := p
    simp only [List.map_cons, List.nodup_cons] at hnd
    rw [dictErase_cons]
    by_cases h : a = k
    · rw [if_pos h]
      exact dictGet_eq_none_of_not_mem k rest (h ▸ hnd.1)
    · rw [if_neg h, dictGet_cons, if_neg h]
      exact ih hnd.2

theorem dictGet_erase_ne (k k' : String) (l : List (String × α))
    (h : k' ≠ k) : dictGet k' (dictErase k l) = dictGet k' l := by
  induction l with
  | nil => rfl
  | cons p rest ih =>
    obtain ⟨a, v⟩ := p
    rw [dictErase_cons, dictGet_cons]
    by_cases hp : a = k
    · rw [if_pos hp, if_neg]
      intro hcon
      exact h (hcon ▸ hp)
    · rw [if_neg hp, dictGet_cons]
      by_cases hp' : a = k'
      · rw [if_pos hp', if_pos hp']
      · rw [if_neg hp', if_neg hp']
        exact ih

/-- The success message of `delete_contact` is never the not-found
message, whatever the name. -/
theorem deleted_msg_ne (name : String) :
    "Contact " ++ name ++ " deleted." ≠ "Contact not found." := by
  intro h
  have h2 : (("Contact " ++ name ++ " deleted.").data).reverse.take 3 =
      (("Contact not found." : String).data).reverse.take 3 := by rw [h]
  rw [show ("Contact " ++ name ++ " deleted.").data =
    ("Contact ".data ++ name.data) ++ " deleted.".data from rfl] at h2
  rw [List.reverse_append] at h2
  rw [show (" deleted." : String).data.reverse =
    ['.', 'd', 'e', 't', 'e', 'l', 'e', 'd', ' '] from rfl] at h2
  simp at h2

/-- Claim C5: the collection delete removes the record stored under the
key (other entries unchanged) and returns whether a record was present,
and the delete-contact command reports "Contact not found." exactly when
no record was present.  (`AddressBook.delete` itself is modelled from the
spec: its definition is not among the provided sources.) -/
theorem claim_C5 :
    ∀ (book : AddressBook) (name : String),
      (book.data.map Prod.fst).Nodup →
      ((book.delete name).1 = (book.find name).isSome ∧
       (book.delete name).2.find name = none ∧
       (∀ k, k ≠ name → (book.delete name).2.find k = book.find k) ∧
       ((delete_contact [name] book).1 = "Contact not found." ↔
         book.find name = none)) := by
  intro book name hnd
  refine ⟨dictHasKey_eq_isSome name book.data,
    dictGet_erase_self name book.data hnd,
    fun k hk => dictGet_erase_ne name k book.data hk, ?_⟩
  show (if dictHasKey name book.data then "Contact " ++ name ++ " deleted."
      else "Contact not found.") = "Contact not found." ↔
    dictGet name book.data = none
  rw [dictHasKey_eq_isSome name book.data]
  cases hg : dictGet name book.data with
  | none => simp
  | some r =>
    constructor
    · intro hmsg
      simp only [Option.isSome_some, if_pos] at hmsg
      exact absurd hmsg (deleted_msg_ne name)
    · intro hnone
      exact absurd hnone (by simp)

/-- Witness for C5: a two-record book, deleting the first. -/
theorem claim_C5_witness :
    ((AddressBook.delete ⟨[("A", ⟨"A", [], none, none, none⟩),
        ("B", ⟨"B", [], none, none, none⟩)]⟩ "A").1 =
      ((⟨[("A", ⟨"A", [], none, none, none⟩),
        ("B", ⟨"B", [], none, none, none⟩)]⟩ : AddressBook).find "A").isSome) ∧
    ((delete_contact ["C"]
        ⟨[("A", ⟨"A", [], none, none, none⟩),
          ("B", ⟨"B", [], none, none, none⟩)]⟩).1 = "Contact not found." ↔
      (AddressBook.find ⟨[("A", ⟨"A", [], none, none, none⟩),
        ("B", ⟨"B", [], none, none, none⟩)]⟩ "C") = none) :=
  ⟨(claim_C5 ⟨[("A", ⟨"A", [], none, none, none⟩),
      ("B", ⟨"B", [], none, none, none⟩)]⟩ "A" (by decide)).1,
   (claim_C5 ⟨[("A", ⟨"A", [], none, none, none⟩),
      ("B", ⟨"B", [], none, none, none⟩)]⟩ "C" (by decide)).2.2.2⟩

/-! ## Claim C6 -/

/-- Claim C6: adding a note whose title already exists raises no
exception, returns the "already exists" outcome, and leaves the whole
notebook (hence the existing note's content, tags and timestamps)
unchanged; no new note is inserted. -/
theorem claim_C6 :
    ∀ (nb : Notebook) (title content : String) (tags : Option (List String))
      (now : String),
      dictHasKey title nb.notes = true →
      nb.add_note title content tags now =
        ("Note with title " ++ sq ++ title ++ sq ++ " already exists.", nb) := by
  intro nb title content tags now h
  unfold Notebook.add_note
  rw [if_pos h]

/-- Witness for C6: a second `add` of title "X" with different content. -/
theorem claim_C6_witness :
    Notebook.add_note ⟨[("X", ⟨"X", "c1", [], "t0", "t0"⟩)]⟩ "X" "c2" none
        "t1" =
      ("Note with title " ++ sq ++ "X" ++ sq ++ " already exists.",
        ⟨[("X", ⟨"X", "c1", [], "t0", "t0"⟩)]⟩) :=
  claim_C6 ⟨[("X", ⟨"X", "c1", [], "t0", "t0"⟩)]⟩ "X" "c2" none "t1"
    (by decide)

/-! ## Claim C9 -/

/-- The argument shape `add` requires: at least two arguments and a second
argument of exactly 10 characters, all digits. -/
def AddArgsValid (args : List String) : Prop :=
  2 ≤ args.length ∧ (args.getD 1 "").length = 10 ∧
    pyIsDigit (args.getD 1 "") = true

instance (args : List String) : Decidable (AddArgsValid args) := by
  unfold AddArgsValid; infer_instance

/-- Claim C9: `add` mutates the book only when there are at least two
arguments and the second is a 10-character all-digit string; otherwise it
returns the usage string and leaves the book unchanged — while the Phone
field validator itself accepts any string that is non-empty after
stripping, so `add` is strictly stricter than the field validator. -/
theorem claim_C9 :
    (∀ (args : List String) (book : AddressBook),
      ¬ AddArgsValid args →
      add_contact args book =
        ("Usage: add [name] [phone number] with 10 digits", book)) ∧
    (∀ (args : List String) (book : AddressBook),
      (add_contact args book).2 ≠ book → AddArgsValid args) ∧
    (∀ s : String, pyStrip s ≠ "" → mkPhone s = .ok (pyStrip s)) := by
  have h1 : ∀ (args : List String) (book : AddressBook),
      ¬ AddArgsValid args →
      add_contact args book =
        ("Usage: add [name] [phone number] with 10 digits", book) := by
    intro args book hn
    have hguard : args.length < 2 ∨ (args.getD 1 "").length ≠ 10 ∨
        ¬ pyIsDigit (args.getD 1 "") = true := by
      by_contra hcon
      push_neg at hcon
      exact hn ⟨by omega, hcon.2.1, hcon.2.2⟩
    unfold add_contact
    rw [if_pos hguard]
  refine ⟨h1, ?_, ?_⟩
  · intro args book hne
    by_contra hn
    apply hne
    rw [h1 args book hn]
  · intro s h
    unfold mkPhone
    rw [if_neg h]

/-- Witness for C9: a one-argument call returns the usage string and the
(empty) book unchanged, and the phone validator accepts "abc". -/
theorem claim_C9_witness :
    add_contact ["Ann"] ⟨[]⟩ =
      ("Usage: add [name] [phone number] with 10 digits", ⟨[]⟩) ∧
    mkPhone "abc" = .ok (pyStrip "abc") :=
  ⟨claim_C9.1 ["Ann"] ⟨[]⟩ (by decide), claim_C9.2.2 "abc" (by decide)⟩

/-! ## Claim C10 -/

theorem dictGet_insert_self (k : String) (v : α) (l : List (String × α)) :
    dictGet k (dictInsert k v l) = some v := by
  induction l with
  | nil => simp [dictInsert, dictGet]
  | cons p rest ih =>
    obtain ⟨a, w⟩ := p
    unfold dictInsert
    by_cases h : a = k
    · rw [if_pos h, dictGet_cons, if_pos rfl]
    · rw [if_neg h, dictGet_cons, if_neg h]
      exact ih

/-- Claim C10: for a book without a record named N and a date string the
Birthday validator rejects, `add-birthday` returns the validation error
message yet still mutates the book — the auto-created empty record for N
is inserted before the date is parsed, so the error outcome is not atomic. -/
theorem claim_C10 :
    ∀ (book : AddressBook) (name bad : String),
      name ≠ "" → book.find name = none → birthdayParse bad = none →
      add_birthday [name, bad] book =
          ("Birthday must be in DD.MM.YYYY format",
            book.add_record ⟨name, [], none, none, none⟩) ∧
        (book.add_record ⟨name, [], none, none, none⟩).find name =
          some ⟨name, [], none, none, none⟩ ∧
        book.add_record ⟨name, [], none, none, none⟩ ≠ book := by
  intro book name bad hname hfind hbad
  have hfind' : dictGet name book.data = none := hfind
  have hins : (book.add_record ⟨name, [], none, none, none⟩).find name =
      some ⟨name, [], none, none, none⟩ :=
    dictGet_insert_self name _ book.data
  refine ⟨?_, hins, ?_⟩
  · show (match book.find name with
      | some r => _
      | none => _) = _
    rw [hfind]
    show (match mkRecord name with
      | .error e => _
      | .ok r => _) = _
    unfold mkRecord mkName
    rw [if_neg hname]
    show (match (⟨name, [], none, none, none⟩ : Record).add_birthday bad with
      | .error e => (e, book.add_record ⟨name, [], none, none, none⟩)
      | .ok r' => _) = _
    unfold Record.add_birthday mkBirthday
    rw [hbad]
    rfl
  · intro heq
    rw [heq] at hins
    rw [hfind] at hins
    exact Option.noConfusion hins

/-- Witness for C10: empty book, name "Ann", rejected date "31-12-2000". -/
theorem claim_C10_witness :
    add_birthday ["Ann", "31-12-2000"] ⟨[]⟩ =
        ("Birthday must be in DD.MM.YYYY format",
          AddressBook.add_record ⟨[]⟩ ⟨"Ann", [], none, none, none⟩) ∧
      (AddressBook.add_record ⟨[]⟩ ⟨"Ann", [], none, none, none⟩).find "Ann" =
        some ⟨"Ann", [], none, none, none⟩ ∧
      AddressBook.add_record ⟨[]⟩ ⟨"Ann", [], none, none, none⟩ ≠ ⟨[]⟩ :=
  claim_C10 ⟨[]⟩ "Ann" "31-12-2000" (by decide) (by decide) (by decide)

/-! ## Claim C8 -/

/-- The claimed collection invariant: each record sits under exactly one
key and that key equals the record's name. -/
def AddressBook.Inv (book : AddressBook) : Prop :=
  (book.data.map Prod.fst).Nodup ∧ ∀ p ∈ book.data, p.1 = p.2.name

instance (book : AddressBook) : Decidable book.Inv := by
  unfold AddressBook.Inv; infer_instance

theorem mem_dictInsert (k : String) (v : α) (l : List (String × α))
    (p : String × α) (h : p ∈ dictInsert k v l) : p = (k, v) ∨ p ∈ l := by
  induction l with
  | nil => simpa [dictInsert] using h
  | cons q rest ih =>
    unfold dictInsert at h
    by_cases hq : q.1 = k
    · rw [if_pos hq] at h
      rcases List.mem_cons.mp h with h | h
      · exact Or.inl h
      · exact Or.inr (List.mem_cons_of_mem _ h)
    · rw [if_neg hq] at h
      rcases List.mem_cons.mp h with h | h
      · exact Or.inr (h ▸ List.mem_cons_self _ _)
      · rcases ih h with h | h
        · exact Or.inl h
        · exact Or.inr (List.mem_cons_of_mem _ h)

theorem mem_keys_dictInsert (k : String) (v : α) (l : List (String × α))
    (x : String) (h : x ∈ (dictInsert k v l).map Prod.fst) :
    x = k ∨ x ∈ l.map Prod.fst := by
  rcases List.mem_map.mp h with ⟨p, hp, hx⟩
  rcases mem_dictInsert k v l p hp with h' | h'
  · left
    rw [← hx, h']
  · right
    exact hx ▸ List.mem_map_of_mem Prod.fst h'

theorem dictInsert_nodup_keys (k : String) (v : α) (l : List (String × α))
    (h : (l.map Prod.fst).Nodup) :
    ((dictInsert k v l).map Prod.fst).Nodup := by
  induction l with
  | nil => simp [dictInsert]
  | cons q rest ih =>
    simp only [List.map_cons, List.nodup_cons] at h
    unfold dictInsert
    by_cases hq : q.1 = k
    · rw [if_pos hq]
      simp only [List.map_cons, List.nodup_cons]
      exact ⟨hq ▸ h.1, h.2⟩
    · rw [if_neg hq]
      simp only [List.map_cons, List.nodup_cons]
      refine ⟨fun hcon => ?_, ih h.2⟩
      rcases mem_keys_dictInsert k v rest q.1 hcon with h' | h'
      · exact hq h'
      · exact h.1 h'

theorem add_record_Inv (book : AddressBook) (r : Record) (h : book.Inv) :
    (book.add_record r).Inv := by
  refine ⟨dictInsert_nodup_keys r.name r book.data h.1, fun p hp => ?_⟩
  rcases mem_dictInsert r.name r book.data p hp with h' | h'
  · rw [h']
  · exact h.2 p h'

/-! Name preservation through `Record.from_dict`. -/

theorem mkRecord_name (s : String) (r : Record) (h : mkRecord s = .ok r) :
    r.name = s := by
  unfold mkRecord mkName at h
  by_cases hs : s = ""
  · rw [if_pos hs] at h
    exact absurd h (by simp [Except.map])
  · rw [if_neg hs] at h
    cases h
    rfl

theorem add_phone_name (r r' : Record) (p : String)
    (h : r.add_phone p = .ok r') : r'.name = r.name := by
  unfold Record.add_phone mkPhone at h
  by_cases hp : pyStrip p = ""
  · rw [if_pos hp] at h
    exact absurd h (by simp [Except.map])
  · rw [if_neg hp] at h
    cases h
    rfl

theorem foldlM_add_phone_name (ps : List String) (r0 r1 : Record)
    (h : ps.foldlM Record.add_phone r0 = .ok r1) : r1.name = r0.name := by
  induction ps generalizing r0 with
  | nil =>
    rw [List.foldlM_nil] at h
    cases h
    rfl
  | cons p rest ih =>
    rw [List.foldlM_cons] at h
    cases hp : r0.add_phone p with
    | error e =>
      rw [hp] at h
      exact absurd h (by simp [Bind.bind, Except.bind])
    | ok r' =>
      rw [hp] at h
      simp only [Bind.bind, Except.bind] at h
      rw [ih r' h, add_phone_name r0 r' p hp]

theorem add_birthday_name (r r' : Record) (b : String)
    (h : r.add_birthday b = .ok r') : r'.name = r.name := by
  unfold Record.add_birthday mkBirthday at h
  cases hb : birthdayParse b with
  | none =>
    rw [hb] at h
    exact absurd h (by simp [Except.map])
  | some d =>
    rw [hb] at h
    cases h
    rfl

theorem fromDictBirthday_name (rd : RecordDict) (r r' : Record)
    (h : fromDictBirthday rd r = .ok r') : r'.name = r.name := by
  unfold fromDictBirthday at h
  revert h
  split
  · intro h
    exact add_birthday_name r r' _ h
  · intro h
    cases h
    rfl

theorem fromDictEmail_name (rd : RecordDict) (r : Record) :
    (fromDictEmail rd r).name = r.name := by
  unfold fromDictEmail
  split <;> rfl

theorem fromDictAddress_name (rd : RecordDict) (r : Record) :
    (fromDictAddress rd r).name = r.name := by
  unfold fromDictAddress
  split <;> rfl

theorem from_dict_ok_name (rd : RecordDict) (r : Record)
    (h : Record.from_dict rd = .ok r) : r.name = rd.effName := by
  unfold Record.from_dict at h
  split at h
  · exact absurd h (by simp)
  · rename_i r0 h0
    split at h
    · exact absurd h (by simp)
    · rename_i r1 h1
      split at h
      · exact absurd h (by simp)
      · rename_i r2 h2
        cases h
        rw [fromDictAddress_name, fromDictEmail_name,
          fromDictBirthday_name rd r1 r2 h2,
          foldlM_add_phone_name rd.phones r0 r1 h1,
          mkRecord_name rd.effName r0 h0]

theorem effName_of_name (rd : RecordDict) (k : String)
    (hn : rd.name = some k) (hk : k ≠ "") : rd.effName = k := by
  unfold RecordDict.effName
  rw [hn]
  simp [truthyStr, hk]

/-- Claim C8, as stated, fails for `from_dict`: the dict comprehension
copies the input keys without re-keying, so the mapping
`{"A": {"name": "B", ...}}` loads into a state whose key "A" holds a
record named "B". -/
theorem claim_C8_counterexample :
    AddressBook.from_dict [("A", ⟨some "B", none, [], none, none, none⟩)] =
        .ok ⟨[("A", ⟨"B", [], none, none, none⟩)]⟩ ∧
      ¬ (AddressBook.Inv ⟨[("A", ⟨"B", [], none, none, none⟩)]⟩) :=
  ⟨rfl, by decide⟩

theorem from_list_fold_Inv (items : List RecordDict) (b0 : AddressBook)
    (h0 : b0.Inv) (book : AddressBook)
    (h : items.foldlM
      (fun book item => (Record.from_dict item).map book.add_record) b0 =
        .ok book) : book.Inv := by
  induction items generalizing b0 with
  | nil =>
    rw [List.foldlM_nil] at h
    cases h
    exact h0
  | cons it rest ih =>
    rw [List.foldlM_cons] at h
    cases hfd : Record.from_dict it with
    | error e =>
      rw [hfd] at h
      exact absurd h (by simp [Except.map, Bind.bind, Except.bind])
    | ok r =>
      rw [hfd] at h
      simp only [Except.map, Bind.bind, Except.bind] at h
      exact ih (b0.add_record r) (add_record_Inv b0 r h0) h

theorem from_dict_mapM_entries (data : List (String × RecordDict))
    (l : List (String × Record))
    (hnames : ∀ p ∈ data, p.2.name = some p.1 ∧ p.1 ≠ "")
    (h : data.mapM
      (fun p => (Record.from_dict p.2).map fun r => (p.1, r)) = .ok l) :
    l.map Prod.fst = data.map Prod.fst ∧ ∀ q ∈ l, q.1 = q.2.name := by
  induction data generalizing l with
  | nil =>
    rw [List.mapM_nil] at h
    cases h
    simp
  | cons p rest ih =>
    rw [List.mapM_cons] at h
    cases hfd : Record.from_dict p.2 with
    | error e =>
      rw [hfd] at h
      exact absurd h (by simp [Except.map, Bind.bind, Except.bind, Pure.pure])
    | ok r =>
      rw [hfd] at h
      cases hrest : rest.mapM
          (fun p => (Record.from_dict p.2).map fun r => (p.1, r)) with
      | error e =>
        rw [hrest] at h
        exact absurd h (by simp [Except.map, Bind.bind, Except.bind, Pure.pure])
      | ok bs =>
        rw [hrest] at h
        simp only [Except.map, Bind.bind, Except.bind, Pure.pure,
          Except.pure] at h
        cases h
        obtain ⟨hk, hv⟩ := ih bs (fun q hq => hnames q (List.mem_cons_of_mem _ hq))
          hrest
        refine ⟨by simp [hk], fun q hq => ?_⟩
        rcases List.mem_cons.mp hq with hq | hq
        · rw [hq]
          show p.1 = r.name
          obtain ⟨hn, hne⟩ := hnames p (List.mem_cons_self _ _)
          rw [from_dict_ok_name p.2 r hfd, effName_of_name p.2 p.1 hn hne]
        · exact hv q hq

/-- Claim C8 (amended): `add_record` preserves the key-equals-name
invariant and `from_list` always establishes it; `from_dict` copies the
given keys without re-keying, so it establishes the invariant exactly for
input mappings whose keys match the stored record names (e.g. any
`to_dict` output of an invariant book), while a mismatched mapping loads
into a violating state. -/
theorem claim_C8 :
    (∀ (book : AddressBook) (r : Record), book.Inv → (book.add_record r).Inv) ∧
    (∀ (items : List RecordDict) (book : AddressBook),
      AddressBook.from_list items = .ok book → book.Inv) ∧
    (∀ (data : List (String × RecordDict)) (book : AddressBook),
      (data.map Prod.fst).Nodup →
      (∀ p ∈ data, p.2.name = some p.1 ∧ p.1 ≠ "") →
      AddressBook.from_dict data = .ok book → book.Inv) := by
  refine ⟨add_record_Inv, ?_, ?_⟩
  · intro items book h
    exact from_list_fold_Inv items ⟨[]⟩ (by constructor <;> simp) book h
  · intro data book hnd hnames h
    unfold AddressBook.from_dict at h
    cases hm : data.mapM
        (fun p => (Record.from_dict p.2).map fun r => (p.1, r)) with
    | error e =>
      rw [hm] at h
      exact absurd h (by simp [Except.map])
    | ok l =>
      rw [hm] at h
      cases h
      obtain ⟨hk, hv⟩ := from_dict_mapM_entries data l hnames hm
      exact ⟨by rw [show (AddressBook.mk l).data = l from rfl, hk]; exact hnd,
        hv⟩

/-- Witness for C8: a singleton well-keyed mapping loads into an invariant
state. -/
theorem claim_C8_witness :
    AddressBook.Inv ⟨[("A", ⟨"A", [], none, none, none⟩)]⟩ :=
  claim_C8.2.2 [("A", ⟨some "A", none, [], none, none, none⟩)]
    ⟨[("A", ⟨"A", [], none, none, none⟩)]⟩ (by decide) (by decide) rfl

/-! ## Digit-character lemmas -/

theorem digitChar_toNat (q : Nat) (h : q ≤ 9) : (digitChar q).toNat = 48 + q := by
  interval_cases q <;> decide

theorem digitChar_ne_dot (q : Nat) (h : q ≤ 9) : digitChar q ≠ '.' := by
  interval_cases q <;> decide

theorem isDigitChar_digitChar (q : Nat) (h : q ≤ 9) :
    isDigitChar (digitChar q) = true := by
  interval_cases q <;> decide

theorem digitVal_digitChar (q : Nat) (h : q ≤ 9) :
    digitVal (digitChar q) = q := by
  interval_cases q <;> decide

theorem digitChar_digitVal (c : Char) (h : isDigitChar c = true) :
    digitChar (digitVal c) = c := by
  unfold isDigitChar at h
  simp only [Bool.and_eq_true, decide_eq_true_eq] at h
  unfold digitChar digitVal
  rw [show 48 + (c.toNat - 48) = c.toNat by omega]
  exact Char.ofNat_toNat c

theorem pad2Chars_ne_dot (n : Nat) : ∀ c ∈ pad2Chars n, c ≠ '.' := by
  intro c hc
  unfold pad2Chars at hc
  rcases List.mem_cons.mp hc with h | h
  · rw [h]
    exact digitChar_ne_dot _ (Nat.le_of_lt_succ (Nat.mod_lt _ (by omega)))
  · simp only [List.mem_singleton] at h
    rw [h]
    exact digitChar_ne_dot _ (Nat.le_of_lt_succ (Nat.mod_lt _ (by omega)))

theorem natChars_ne_dot (n : Nat) : ∀ c ∈ natChars n, c ≠ '.' := by
  intro c hc
  unfold natChars at hc
  by_cases h1 : n < 10
  · rw [if_pos h1] at hc
    simp only [List.mem_singleton] at hc
    rw [hc]
    exact digitChar_ne_dot n (by omega)
  · rw [if_neg h1] at hc
    by_cases h2 : n < 100
    · rw [if_pos h2] at hc
      simp only [List.mem_cons, List.mem_singleton, List.not_mem_nil,
        or_false] at hc
      rcases hc with hc | hc <;> rw [hc] <;>
        exact digitChar_ne_dot _ (by omega)
    · rw [if_neg h2] at hc
      by_cases h3 : n < 1000
      · rw [if_pos h3] at hc
        simp only [List.mem_cons, List.mem_singleton, List.not_mem_nil,
          or_false] at hc
        rcases hc with hc | hc | hc <;> rw [hc] <;>
          exact digitChar_ne_dot _ (by omega)
      · rw [if_neg h3] at hc
        by_cases h4 : n < 10000
        · rw [if_pos h4] at hc
          simp only [List.mem_cons, List.mem_singleton, List.not_mem_nil,
            or_false] at hc
          rcases hc with hc | hc | hc | hc <;> rw [hc] <;>
            exact digitChar_ne_dot _ (by omega)
        · rw [if_neg h4] at hc
          cases hc

/-! ## takeWhile / dropWhile at the dots -/

theorem takeWhile_append_dot (xs ys : List Char) (h : ∀ c ∈ xs, c ≠ '.') :
    (xs ++ '.' :: ys).takeWhile (· ≠ '.') = xs := by
  induction xs with
  | nil => simp [List.takeWhile]
  | cons c rest ih =>
    simp only [List.cons_append, List.takeWhile_cons]
    rw [if_pos (by simp [h c (List.mem_cons_self _ _)])]
    rw [ih (fun c hc => h c (List.mem_cons_of_mem _ hc))]

theorem dropWhile_append_dot (xs ys : List Char) (h : ∀ c ∈ xs, c ≠ '.') :
    (xs ++ '.' :: ys).dropWhile (· ≠ '.') = '.' :: ys := by
  induction xs with
  | nil => simp [List.dropWhile]
  | cons c rest ih =>
    simp only [List.cons_append, List.dropWhile_cons]
    rw [if_pos (by simp [h c (List.mem_cons_self _ _)])]
    exact ih (fun c hc => h c (List.mem_cons_of_mem _ hc))

/-! ## Token parsers applied to formatted output -/

theorem parseDayTok_pad2 (d : Nat) (h1 : 1 ≤ d) (h2 : d ≤ 31) :
    parseDayTok (pad2Chars d) = some d := by
  interval_cases d <;> decide

theorem parseMonthTok_pad2 (m : Nat) (h1 : 1 ≤ m) (h2 : m ≤ 12) :
    parseMonthTok (pad2Chars m) = some m := by
  interval_cases m <;> decide

theorem natChars_year (y : Nat) (h1 : 1000 ≤ y) (h2 : y ≤ 9999) :
    natChars y = [digitChar (y / 1000), digitChar (y / 100 % 10),
      digitChar (y / 10 % 10), digitChar (y % 10)] := by
  unfold natChars
  rw [if_neg (by omega), if_neg (by omega), if_neg (by omega),
    if_pos (by omega)]

theorem parseYearTok_natChars (y : Nat) (h1 : 1000 ≤ y) (h2 : y ≤ 9999) :
    parseYearTok (natChars y) = some y := by
  rw [natChars_year y h1 h2]
  show (if isDigitChar (digitChar (y / 1000)) = true ∧
      isDigitChar (digitChar (y / 100 % 10)) = true ∧
      isDigitChar (digitChar (y / 10 % 10)) = true ∧
      isDigitChar (digitChar (y % 10)) = true then
    some (((digitVal (digitChar (y / 1000)) * 10 +
      digitVal (digitChar (y / 100 % 10))) * 10 +
      digitVal (digitChar (y / 10 % 10))) * 10 +
      digitVal (digitChar (y % 10)))
    else none) = some y
  rw [if_pos ⟨isDigitChar_digitChar _ (by omega),
    isDigitChar_digitChar _ (by omega),
    isDigitChar_digitChar _ (by omega),
    isDigitChar_digitChar _ (by omega)⟩]
  rw [digitVal_digitChar _ (by omega), digitVal_digitChar _ (by omega),
    digitVal_digitChar _ (by omega), digitVal_digitChar _ (by omega)]
  congr 1
  omega

/-- Parsing inverts formatting for valid dates with a four-digit year. -/
theorem strptime_format (d : Date) (hv : d.Valid) (hy : 1000 ≤ d.year) :
    strptimeDMY (formatDate d) = some d := by
  obtain ⟨hy1, hy2, hm1, hm2, hd1, hd2⟩ := hv
  have hd31 : d.day ≤ 31 := by
    have h := hd2
    unfold daysInMonth daysInMonthB at h
    revert h
    split
    · split <;> omega
    · split
      · omega
      · split <;> omega
  have hdata : (formatDate d).toList =
      pad2Chars d.day ++ '.' :: (pad2Chars d.month ++ '.' :: natChars d.year) :=
    rfl
  unfold strptimeDMY
  rw [hdata]
  dsimp only
  rw [takeWhile_append_dot _ _ (pad2Chars_ne_dot d.day),
    dropWhile_append_dot _ _ (pad2Chars_ne_dot d.day)]
  show (if ('.' : Char) = '.' then _ else none) = some d
  rw [if_pos rfl]
  rw [takeWhile_append_dot _ _ (pad2Chars_ne_dot d.month),
    dropWhile_append_dot _ _ (pad2Chars_ne_dot d.month)]
  show (if ('.' : Char) = '.' then _ else none) = some d
  rw [if_pos rfl]
  rw [parseDayTok_pad2 d.day hd1 hd31, parseMonthTok_pad2 d.month hm1 hm2,
    parseYearTok_natChars d.year hy hy2]
  show (if 1 ≤ d.year ∧ d.day ≤ daysInMonth d.year d.month then
    some ⟨d.year, d.month, d.day⟩ else none) = some d
  rw [if_pos ⟨hy1, hd2⟩]

/-! ## Inversion: canonical strings are reproduced by formatting -/

theorem digitVal_le9 (c : Char) (h : isDigitChar c = true) :
    digitVal c ≤ 9 := by
  unfold isDigitChar at h
  simp only [Bool.and_eq_true, decide_eq_true_eq] at h
  unfold digitVal
  omega

theorem parseDayTok_shape (xs : List Char) (v : Nat)
    (h : parseDayTok xs = some v) : xs.length = 1 ∨ xs.length = 2 := by
  match xs with
  | [] => simp [parseDayTok] at h
  | [c] => left; rfl
  | [c1, c2] => right; rfl
  | c1 :: c2 :: c3 :: rest => simp [parseDayTok] at h

theorem parseMonthTok_shape (xs : List Char) (v : Nat)
    (h : parseMonthTok xs = some v) : xs.length = 1 ∨ xs.length = 2 := by
  match xs with
  | [] => simp [parseMonthTok] at h
  | [c] => left; rfl
  | [c1, c2] => right; rfl
  | c1 :: c2 :: c3 :: rest => simp [parseMonthTok] at h

theorem parseYearTok_shape (xs : List Char) (v : Nat)
    (h : parseYearTok xs = some v) : ∃ a b c d, xs = [a, b, c, d] := by
  match xs with
  | [a, b, c, d] => exact ⟨a, b, c, d, rfl⟩
  | [] => simp [parseYearTok] at h
  | [a] => simp [parseYearTok] at h
  | [a, b] => simp [parseYearTok] at h
  | [a, b, c] => simp [parseYearTok] at h
  | a :: b :: c :: d :: e :: rest => simp [parseYearTok] at h

theorem pad2_of_parseDayTok (c1 c2 : Char) (v : Nat)
    (h : parseDayTok [c1, c2] = some v) : pad2Chars v = [c1, c2] := by
  simp only [parseDayTok] at h
  split at h
  next hb =>
    obtain ⟨rfl, hc2⟩ := hb
    cases h
    rcases hc2 with rfl | rfl <;> decide
  next hb1 =>
    split at h
    next hb2 =>
      obtain ⟨hc1, hd⟩ := hb2
      cases h
      have h9 := digitVal_le9 c2 hd
      unfold pad2Chars
      rcases hc1 with rfl | rfl
      · rw [show digitVal '1' = 1 from rfl]
        rw [show (1 * 10 + digitVal c2) / 10 % 10 = 1 from by omega]
        rw [show (1 * 10 + digitVal c2) % 10 = digitVal c2 from by omega]
        rw [digitChar_digitVal c2 hd]
        rfl
      · rw [show digitVal '2' = 2 from rfl]
        rw [show (2 * 10 + digitVal c2) / 10 % 10 = 2 from by omega]
        rw [show (2 * 10 + digitVal c2) % 10 = digitVal c2 from by omega]
        rw [digitChar_digitVal c2 hd]
        rfl
    next hb2 =>
      split at h
      next hb3 =>
        obtain ⟨rfl, hlo, hhi⟩ := hb3
        cases h
        have hd : isDigitChar c2 = true := by
          unfold isDigitChar
          simp only [Bool.and_eq_true, decide_eq_true_eq]
          omega
        have h9 := digitVal_le9 c2 hd
        have h1 : 1 ≤ digitVal c2 := by
          unfold digitVal
          omega
        unfold pad2Chars
        rw [show digitVal c2 / 10 % 10 = 0 from by omega]
        rw [show digitVal c2 % 10 = digitVal c2 from by omega]
        rw [digitChar_digitVal c2 hd]
        rfl
      next hb3 => cases h

theorem pad2_of_parseMonthTok (c1 c2 : Char) (v : Nat)
    (h : parseMonthTok [c1, c2] = some v) : pad2Chars v = [c1, c2] := by
  simp only [parseMonthTok] at h
  split at h
  next hb =>
    obtain ⟨rfl, hc2⟩ := hb
    cases h
    rcases hc2 with rfl | rfl | rfl <;> decide
  next hb1 =>
    split at h
    next hb2 =>
      obtain ⟨rfl, hlo, hhi⟩ := hb2
      cases h
      have hd : isDigitChar c2 = true := by
        unfold isDigitChar
        simp only [Bool.and_eq_true, decide_eq_true_eq]
        omega
      have h9 := digitVal_le9 c2 hd
      have h1 : 1 ≤ digitVal c2 := by
        unfold digitVal
        omega
      unfold pad2Chars
      rw [show digitVal c2 / 10 % 10 = 0 from by omega]
      rw [show digitVal c2 % 10 = digitVal c2 from by omega]
      rw [digitChar_digitVal c2 hd]
      rfl
    next hb2 => cases h

theorem natChars_of_parseYearTok (a b c d4 : Char) (y : Nat)
    (h : parseYearTok [a, b, c, d4] = some y) (hy : 1000 ≤ y) :
    natChars y = [a, b, c, d4] := by
  simp only [parseYearTok] at h
  split at h
  next hd =>
    obtain ⟨ha, hb, hc, hd4⟩ := hd
    cases h
    have h9a := digitVal_le9 a ha
    have h9b := digitVal_le9 b hb
    have h9c := digitVal_le9 c hc
    have h9d := digitVal_le9 d4 hd4
    rw [natChars_year _ hy (by omega)]
    rw [show (((digitVal a * 10 + digitVal b) * 10 + digitVal c) * 10 +
        digitVal d4) / 1000 = digitVal a from by omega]
    rw [show (((digitVal a * 10 + digitVal b) * 10 + digitVal c) * 10 +
        digitVal d4) / 100 % 10 = digitVal b from by omega]
    rw [show (((digitVal a * 10 + digitVal b) * 10 + digitVal c) * 10 +
        digitVal d4) / 10 % 10 = digitVal c from by omega]
    rw [show (((digitVal a * 10 + digitVal b) * 10 + digitVal c) * 10 +
        digitVal d4) % 10 = digitVal d4 from by omega]
    rw [digitChar_digitVal a ha, digitChar_digitVal b hb,
      digitChar_digitVal c hc, digitChar_digitVal d4 hd4]
  next => cases h

theorem exists_pair_of_len2 (l : List Char) (h : l.length = 2) :
    ∃ a b, l = [a, b] := by
  match l with
  | [a, b] => exact ⟨a, b, rfl⟩
  | [] => simp at h
  | [a] => simp at h
  | a :: b :: c :: rest => simp at h

/-- A string of length 10 accepted by `strptime("%d.%m.%Y")` whose year
has four digits with a non-zero leading digit is reproduced exactly by
`strftime("%d.%m.%Y")` of the parsed date. -/
theorem strptimeDMY_inv (s : String) (d : Date) (h : strptimeDMY s = some d)
    (hlen : s.toList.length = 10) (hy : 1000 ≤ d.year) :
    formatDate d = s := by
  unfold strptimeDMY at h
  dsimp only at h
  split at h
  case h_2 => cases h
  case h_1 c1 rest2 heq1 =>
    split at h
    case isFalse => cases h
    case isTrue hc1 =>
      subst hc1
      split at h
      case h_2 => cases h
      case h_1 c2 yTok heq2 =>
        split at h
        case isFalse => cases h
        case isTrue hc2 =>
          subst hc2
          split at h
          case h_2 => cases h
          case h_1 dv mv yv heqD heqM heqY =>
            split at h
            case isFalse => cases h
            case isTrue hcond =>
              cases h
              have e1 : s.toList =
                  s.toList.takeWhile (fun x => decide (x ≠ '.')) ++
                    '.' :: rest2 := by
                rw [← heq1, List.takeWhile_append_dropWhile]
              have e2 : rest2 =
                  rest2.takeWhile (fun x => decide (x ≠ '.')) ++
                    '.' :: yTok := by
                rw [← heq2, List.takeWhile_append_dropWhile]
              obtain ⟨ya, yb, yc, yd, hysh⟩ := parseYearTok_shape yTok yv heqY
              have hlend := parseDayTok_shape _ dv heqD
              have hlenm := parseMonthTok_shape _ mv heqM
              have hlen1 : s.toList.length =
                  (s.toList.takeWhile (fun x => decide (x ≠ '.'))).length +
                    (1 + rest2.length) := by
                conv_lhs => rw [e1]
                simp only [List.length_append, List.length_cons]
                omega
              have hlen2 : rest2.length =
                  (rest2.takeWhile (fun x => decide (x ≠ '.'))).length +
                    (1 + yTok.length) := by
                conv_lhs => rw [e2]
                simp only [List.length_append, List.length_cons]
                omega
              have hylen : yTok.length = 4 := by
                simp [hysh]
              have hdlen : (s.toList.takeWhile
                  (fun x => decide (x ≠ '.'))).length = 2 := by omega
              have hmlen : (rest2.takeWhile
                  (fun x => decide (x ≠ '.'))).length = 2 := by omega
              obtain ⟨a1, a2, hda⟩ := exists_pair_of_len2 _ hdlen
              obtain ⟨b1, b2, hmb⟩ := exists_pair_of_len2 _ hmlen
              rw [hda] at heqD e1
              rw [hmb] at heqM e2
              rw [hysh] at heqY e2
              have hfd : formatDate ⟨yv, mv, dv⟩ = ⟨pad2Chars dv ++
                  '.' :: (pad2Chars mv ++ '.' :: natChars yv)⟩ := rfl
              rw [hfd, pad2_of_parseDayTok a1 a2 dv heqD,
                pad2_of_parseMonthTok b1 b2 mv heqM,
                natChars_of_parseYearTok ya yb yc yd yv heqY hy]
              rw [← e2, ← e1]
              rfl

/-- Claim C7, as stated, fails on the lenient day/month tokens of
`strptime`: `Birthday("1.01.2000")` is accepted (one-digit day), but
formatting the parsed date yields the padded "01.01.2000", not the
original string. -/
theorem claim_C7_counterexample :
    birthdayParse "1.01.2000" = some ⟨2000, 1, 1⟩ ∧
      formatDate ⟨2000, 1, 1⟩ = "01.01.2000" ∧
      ("01.01.2000" : String) ≠ "1.01.2000" := by
  refine ⟨by decide, by decide, by decide⟩

/-- Claim C7 (amended): for every birthday string accepted by the
`Birthday` constructor that is in canonical shape — no surrounding
whitespace, length 10 (two-digit day and month, four-digit year) and a
year ≥ 1000 — formatting the parsed date reproduces the string exactly;
other accepted strings (one-digit day or month tokens) re-format to the
zero-padded canonical form, and strings not matching the format or
denoting impossible dates are rejected. -/
theorem claim_C7 :
    ∀ (s : String) (d : Date),
      birthdayParse s = some d → s.toList.length = 10 → pyStrip s = s →
      1000 ≤ d.year → formatDate d = s := by
  intro s d h hlen hstrip hy
  unfold birthdayParse at h
  rw [hstrip] at h
  exact strptimeDMY_inv s d h hlen hy

/-- Witness for C7: the canonical string "29.02.2000" round-trips. -/
theorem claim_C7_witness : formatDate ⟨2000, 2, 29⟩ = "29.02.2000" :=
  claim_C7 "29.02.2000" ⟨2000, 2, 29⟩ (by decide) (by decide) (by decide)
    (by decide)

/-! ## Claim C3 -/

instance optionBAllDecidable {α : Type} {p : α → Prop} [DecidablePred p] :
    (o : Option α) → Decidable (∀ x ∈ o, p x)
  | none => isTrue (by simp)
  | some a => decidable_of_iff (p a) (by simp)

theorem pad2Chars_digits (n : Nat) :
    ∀ c ∈ pad2Chars n, ∃ q, q ≤ 9 ∧ c = digitChar q := by
  intro c hc
  unfold pad2Chars at hc
  simp only [List.mem_cons, List.mem_singleton, List.not_mem_nil,
    or_false] at hc
  rcases hc with hc | hc <;>
    exact ⟨_, Nat.le_of_lt_succ (Nat.mod_lt _ (by omega)), hc⟩

theorem natChars_digits (n : Nat) :
    ∀ c ∈ natChars n, ∃ q, q ≤ 9 ∧ c = digitChar q := by
  intro c hc
  unfold natChars at hc
  by_cases h1 : n < 10
  · rw [if_pos h1] at hc
    simp only [List.mem_singleton] at hc
    exact ⟨n, by omega, hc⟩
  · rw [if_neg h1] at hc
    by_cases h2 : n < 100
    · rw [if_pos h2] at hc
      simp only [List.mem_cons, List.mem_singleton, List.not_mem_nil,
        or_false] at hc
      rcases hc with hc | hc
      · exact ⟨n / 10, by omega, hc⟩
      · exact ⟨n % 10, by omega, hc⟩
    · rw [if_neg h2] at hc
      by_cases h3 : n < 1000
      · rw [if_pos h3] at hc
        simp only [List.mem_cons, List.mem_singleton, List.not_mem_nil,
          or_false] at hc
        rcases hc with hc | hc | hc
        · exact ⟨n / 100, by omega, hc⟩
        · exact ⟨n / 10 % 10, by omega, hc⟩
        · exact ⟨n % 10, by omega, hc⟩
      · rw [if_neg h3] at hc
        by_cases h4 : n < 10000
        · rw [if_pos h4] at hc
          simp only [List.mem_cons, List.mem_singleton, List.not_mem_nil,
            or_false] at hc
          rcases hc with hc | hc | hc | hc
          · exact ⟨n / 1000, by omega, hc⟩
          · exact ⟨n / 100 % 10, by omega, hc⟩
          · exact ⟨n / 10 % 10, by omega, hc⟩
          · exact ⟨n % 10, by omega, hc⟩
        · rw [if_neg h4] at hc
          cases hc

theorem digitChar_not_ws (q : Nat) (h : q ≤ 9) :
    (digitChar q).isWhitespace = false := by
  interval_cases q <;> decide

theorem formatDate_no_ws (d : Date) :
    ∀ c ∈ (formatDate d).toList, c.isWhitespace = false := by
  intro c hc
  rw [show (formatDate d).toList = pad2Chars d.day ++
    '.' :: (pad2Chars d.month ++ '.' :: natChars d.year) from rfl] at hc
  rcases List.mem_append.mp hc with h | h
  · obtain ⟨q, hq, rfl⟩ := pad2Chars_digits _ c h
    exact digitChar_not_ws q hq
  · rcases List.mem_cons.mp h with rfl | h
    · decide
    · rcases List.mem_append.mp h with h | h
      · obtain ⟨q, hq, rfl⟩ := pad2Chars_digits _ c h
        exact digitChar_not_ws q hq
      · rcases List.mem_cons.mp h with rfl | h
        · decide
        · obtain ⟨q, hq, rfl⟩ := natChars_digits _ c h
          exact digitChar_not_ws q hq

theorem dropWhile_eq_self_of (p : Char → Bool) (cs : List Char)
    (h : ∀ c ∈ cs, p c = false) : cs.dropWhile p = cs := by
  cases cs with
  | nil => rfl
  | cons c rest =>
    rw [List.dropWhile_cons, if_neg]
    simp [h c (List.mem_cons_self _ _)]

theorem stripChars_id (cs : List Char)
    (h : ∀ c ∈ cs, c.isWhitespace = false) : stripChars cs = cs := by
  unfold stripChars
  rw [dropWhile_eq_self_of _ cs h]
  rw [dropWhile_eq_self_of _ cs.reverse
    (fun c hc => h c (List.mem_reverse.mp hc))]
  exact List.reverse_reverse cs

theorem pyStrip_formatDate (d : Date) :
    pyStrip (formatDate d) = formatDate d := by
  unfold pyStrip
  rw [stripChars_id _ (formatDate_no_ws d)]
  rfl

theorem formatDate_ne_empty (d : Date) : formatDate d ≠ "" := by
  intro h
  have h2 := congrArg String.data h
  rw [show (formatDate d).data = pad2Chars d.day ++
    '.' :: (pad2Chars d.month ++ '.' :: natChars d.year) from rfl] at h2
  simp [pad2Chars] at h2

theorem foldlM_add_phone_strip (ps : List String) (r0 : Record)
    (h : ∀ p ∈ ps, pyStrip p = p ∧ p ≠ "") :
    ps.foldlM Record.add_phone r0 = .ok {r0 with phones := r0.phones ++ ps} := by
  induction ps generalizing r0 with
  | nil =>
    rw [List.foldlM_nil]
    show Except.ok r0 = Except.ok {r0 with phones := r0.phones ++ []}
    rw [List.append_nil]
  | cons p ps ih =>
    rw [List.foldlM_cons]
    obtain ⟨hsp, hne⟩ := h p (List.mem_cons_self _ _)
    have hstep : r0.add_phone p = .ok {r0 with phones := r0.phones ++ [p]} := by
      unfold Record.add_phone mkPhone
      dsimp only
      rw [hsp, if_neg hne]
      rfl
    rw [hstep]
    simp only [Bind.bind, Except.bind]
    rw [ih {r0 with phones := r0.phones ++ [p]}
      (fun q hq => h q (List.mem_cons_of_mem _ hq))]
    simp

/-- The fields as produced by the validators, restricted as the
counterexample forces: set email/address values non-empty (the
constructors always strip), stored birthdays valid with year ≥ 1000. -/
def Record.WF (r : Record) : Prop :=
  r.name ≠ "" ∧
  (∀ p ∈ r.phones, pyStrip p = p ∧ p ≠ "") ∧
  (∀ b ∈ r.birthday, b.Valid ∧ 1000 ≤ b.year) ∧
  (∀ e ∈ r.email, pyStrip e = e ∧ e ≠ "") ∧
  (∀ a ∈ r.address, pyStrip a = a ∧ a ≠ "")

instance (r : Record) : Decidable r.WF := by
  unfold Record.WF; infer_instance

theorem record_from_to_dict (r : Record) (h : r.WF) :
    Record.from_dict r.to_dict = .ok r := by
  obtain ⟨hnm, hph, hbd, hem, had⟩ := h
  have heff : (r.to_dict).effName = r.name := effName_of_name _ _ rfl hnm
  have hmk : mkRecord r.name = .ok ⟨r.name, [], none, none, none⟩ := by
    unfold mkRecord mkName
    rw [if_neg hnm]
    rfl
  have hfold : fromDictPhones r.to_dict ⟨r.name, [], none, none, none⟩ =
      .ok ⟨r.name, r.phones, none, none, none⟩ := by
    unfold fromDictPhones
    show r.phones.foldlM Record.add_phone _ = _
    rw [foldlM_add_phone_strip r.phones _ hph]
    rw [show ([] : List String) ++ r.phones = r.phones from List.nil_append _]
  have hbstep : fromDictBirthday r.to_dict ⟨r.name, r.phones, none, none, none⟩ =
      .ok ⟨r.name, r.phones, r.birthday, none, none⟩ := by
    unfold fromDictBirthday
    rw [show (r.to_dict).birthday = r.birthday.map formatDate from rfl]
    cases hb : r.birthday with
    | none => rfl
    | some b =>
      obtain ⟨hv, hy⟩ := hbd b (by rw [Option.mem_def]; exact hb)
      rw [show truthyStr ((some b).map formatDate) = some (formatDate b) from by
        show (if formatDate b = "" then none else some (formatDate b)) =
          some (formatDate b)
        rw [if_neg (formatDate_ne_empty b)]]
      show Record.add_birthday _ (formatDate b) = _
      unfold Record.add_birthday mkBirthday birthdayParse
      rw [pyStrip_formatDate, strptime_format b hv hy]
      rfl
  have hestep : fromDictEmail r.to_dict ⟨r.name, r.phones, r.birthday, none, none⟩ =
      ⟨r.name, r.phones, r.birthday, r.email, none⟩ := by
    unfold fromDictEmail
    rw [show (r.to_dict).email = r.email from rfl]
    cases he : r.email with
    | none => rfl
    | some e =>
      obtain ⟨hse, hne⟩ := hem e (by rw [Option.mem_def]; exact he)
      rw [show truthyStr (some e) = some e from by
        show (if e = "" then none else some e) = some e
        rw [if_neg hne]]
      show Record.add_email _ e = _
      unfold Record.add_email mkEmail
      rw [hse]
  have hastep : fromDictAddress r.to_dict
      ⟨r.name, r.phones, r.birthday, r.email, none⟩ =
      ⟨r.name, r.phones, r.birthday, r.email, r.address⟩ := by
    unfold fromDictAddress
    rw [show (r.to_dict).address = r.address from rfl]
    cases ha : r.address with
    | none => rfl
    | some a =>
      obtain ⟨hsa, hne⟩ := had a (by rw [Option.mem_def]; exact ha)
      rw [show truthyStr (some a) = some a from by
        show (if a = "" then none else some a) = some a
        rw [if_neg hne]]
      show Record.add_address _ a = _
      unfold Record.add_address mkAddress
      rw [hsa]
  unfold Record.from_dict
  rw [heff]
  simp only [hmk, hfold, hbstep, hestep, hastep]

theorem mapM_from_to (l : List (String × Record)) (h : ∀ p ∈ l, p.2.WF) :
    (l.map fun p => (p.1, p.2.to_dict)).mapM
      (fun p => (Record.from_dict p.2).map fun r => (p.1, r)) = .ok l := by
  induction l with
  | nil => rfl
  | cons p rest ih =>
    rw [List.map_cons, List.mapM_cons]
    have ih' := ih (fun q hq => h q (List.mem_cons_of_mem _ hq))
    simp only [Except.map] at ih'
    simp only [record_from_to_dict p.2 (h p (List.mem_cons_self _ _)),
      Except.map, Bind.bind, Except.bind, Pure.pure, Except.pure]
    rw [ih']

/-- Claim C3, as stated, fails on a record whose email (or address) was
set to the empty string — `Email("")` is accepted by the validator, but
`from_dict`'s truthiness test `if email:` drops the empty string, so the
round-tripped record comes back with the field unset. -/
theorem claim_C3_counterexample :
    AddressBook.from_dict
        (AddressBook.to_dict ⟨[("A", ⟨"A", [], none, some "", none⟩)]⟩) =
      .ok ⟨[("A", ⟨"A", [], none, none, none⟩)]⟩ ∧
    (⟨"A", [], none, some "", none⟩ : Record) ≠ ⟨"A", [], none, none, none⟩ :=
  ⟨rfl, by decide⟩

/-- Claim C3 (amended): serialize-then-deserialize is the identity on
every collection whose records carry validator-produced fields with set
email/address values non-empty and birthday years ≥ 1000: `from_dict`
applied to `to_dict` returns exactly the original collection (same keys,
names, phone sequences in order, birthdays, emails and addresses).  A
record with an empty-string email/address comes back with that field
unset, and a birthday before year 1000 fails to re-parse (the glibc `%Y`
output has no zero padding). -/
theorem claim_C3 :
    ∀ (book : AddressBook), (∀ p ∈ book.data, p.2.WF) →
      AddressBook.from_dict book.to_dict = .ok book := by
  intro book h
  unfold AddressBook.from_dict AddressBook.to_dict
  rw [mapM_from_to book.data h]
  rfl

/-- Witness for C3: a one-record book with every optional field set
round-trips. -/
theorem claim_C3_witness :
    AddressBook.from_dict (AddressBook.to_dict
        ⟨[("Ann", ⟨"Ann", ["0501234567", "123"], some ⟨2000, 2, 29⟩,
          some "a@b.c", some "Kyiv 7"⟩)]⟩) =
      .ok ⟨[("Ann", ⟨"Ann", ["0501234567", "123"], some ⟨2000, 2, 29⟩,
        some "a@b.c", some "Kyiv 7"⟩)]⟩ :=
  claim_C3 ⟨[("Ann", ⟨"Ann", ["0501234567", "123"], some ⟨2000, 2, 29⟩,
    some "a@b.c", some "Kyiv 7"⟩)]⟩ (by decide)

end Assistant
